import Mathlib

/-!
Verification of the `socrata_metadata_pub.py` ETL pipeline
(`src/etl/socrata_metadata_pub.py`).

The pipeline extracts catalog metadata from two Socrata catalog views
(a public one and a privileged one), classifies each asset as public or
private, filters to the DTS owner or the "Transportation and Mobility"
category, flattens the nested metadata into a fixed flat schema
(converting UTC timestamps to US Central civil time), enriches each
dataset-typed record with a row count fetched per record, and publishes
the result.

This file is a shallow embedding of that program:

* JSON scalar values are `Value`; Python dicts are association lists
  (`Dict`) with CPython's insertion semantics (`dinsert`).
* `extract` (its pure core: the two catalog responses are arguments),
  `convert_tz`, `transform_row` / `transform`, `fetch` /
  `get_row_counts` are translated line by line from the source; Python
  exceptions (KeyError, TypeError, ValueError, a failed HTTP task)
  are `none` in an `Option` result.
* The calendar arithmetic of `datetime` / `pytz` is embedded by
  `toDays` / `daysToCivil` (proleptic Gregorian calendar) and
  `centralOffset` (the post-2007 US DST rule for US/Central).
-/

namespace SocrataMetadata

/-! ## Values and Python-style dicts -/

/-- A scalar JSON value as handled by the script. -/
inductive Value where
  | str (s : String)
  | num (n : Int)
  | bool (b : Bool)
  | null
deriving DecidableEq, Repr

/-- A Python dict with string keys: an association list holding at most one
binding per key (all dicts built here preserve that invariant by
construction). -/
abbrev Dict := List (String × Value)

/-- `d[k]`, as an `Option` (Python raises `KeyError` on a missing key). -/
def dlookup (d : Dict) (k : String) : Option Value :=
  match d with
  | [] => none
  | (k', v) :: rest => if k' = k then some v else dlookup rest k

/-- `k in d`. -/
def dmem (d : Dict) (k : String) : Bool :=
  match d with
  | [] => false
  | (k', _) :: rest => k' == k || dmem rest k

/-- `d[k] = v`: CPython dicts overwrite in place when the key is present and
append the new key at the end otherwise. -/
def dinsert : Dict → String → Value → Dict
  | [], k, v => [(k, v)]
  | p :: rest, k, v => if p.1 = k then (k, v) :: rest else p :: dinsert rest k v

/-- The keys of a dict, in insertion order. -/
def dkeys (d : Dict) : List String := d.map Prod.fst

/-- Is the value a number? -/
def isNum : Value → Bool
  | .num _ => true
  | _ => false

/-! ## The data model (§3 of the design): one catalog asset -/

/-- The `resource` sub-object of an asset: its scalar members (including
`id` and the `OUT_FIELDS` members) in `fields`, and the nested
`page_views` object. -/
structure Resource where
  fields : Dict
  page_views : Option Dict
deriving DecidableEq, Repr

/-- The `classification` sub-object of an asset. -/
structure Classification where
  domain_category : Option String
  domain_tags : Option (List Value)
  domain_metadata : Option (List (String × Value))
  domain_private_metadata : Option (List (String × Value))
deriving DecidableEq, Repr

/-- The `owner` sub-object of an asset. -/
structure Owner where
  id : String
  display_name : Option Value
deriving DecidableEq, Repr

/-- One asset of a catalog response; `is_public` is the key the
classification step writes at the top level of the record (absent before
classification). -/
structure Asset where
  resource : Resource
  classification : Classification
  owner : Owner
  is_public : Option Bool
deriving DecidableEq, Repr

/-! ## Constants of the script (lines 25-48) -/

/-- Unique ID for the data publishing account (line 28). -/
def ATD_USER_ID : String := "8t3r-wq64"

/-- Public base URL (line 30). -/
def BASE_URL : String := "https://data.austintexas.gov/d/"

/-- Privileged base URL (line 31). -/
def EDP_URL : String := "https://datahub.austintexas.gov/d/"

/-- The projected output fields (lines 33-48). -/
def OUT_FIELDS : List String :=
  ["id", "name", "description", "attribution", "type", "updatedAt", "createdAt",
   "metadata_updated_at", "data_updated_at", "download_count", "publication_date",
   "page_views_last_week", "page_views_last_month", "page_views_total"]

/-- The seven publishing-metadata fields pulled in `transform`
(lines 115-123), as (external key, output key) pairs in insertion order. -/
def FIELDS : List (String × String) :=
  [("Publishing-Information_Automation-Method", "automation_method"),
   ("Publishing-Information_Automation-Method-(if-Other)", "automation_method_other"),
   ("Publishing-Information_Update-Frequency", "update_frequency"),
   ("Publishing-Information_Spatial-Information", "spatial_information"),
   ("Ownership_Department-name", "department_name"),
   ("Ownership_Program-Name", "program_name"),
   ("Strategic-Area_Strategic-Direction-Outcome", "strategic_area")]

/-! ## `extract` (lines 51-89): classification and filtering

The two HTTP catalog responses are supplied as arguments (`odp` is the
public view, `edp` the full/privileged view); everything after the two
`requests.get` calls is embedded literally. -/

/-- `odp_ids = [a["resource"]["id"] for a in odp_data["results"]]` (line 68);
`none` models the KeyError on a missing `id`. -/
def odpIds (odp : List Asset) : Option (List Value) :=
  odp.mapM (fun a => dlookup a.resource.fields "id")

/-- One iteration of the loop in `extract` (lines 72-88): set `is_public`
from membership of the asset's id in the public-view ids, default a missing
`domain_category` to `""`, then decide whether the asset is retained
(owner or category match, and no `:` in the id).  Fails — like the Python —
when `resource.id` is missing (KeyError) or when the `":" not in id` check
runs on a non-string id (TypeError). -/
def processAsset (ids : List Value) (a : Asset) : Option (Asset × Bool) := do
  let idv ← dlookup a.resource.fields "id"
  let a1 : Asset := { a with is_public := some (ids.contains idv) }
  let a2 : Asset := { a1 with classification :=
    { a1.classification with
      domain_category := some (a1.classification.domain_category.getD "") } }
  if a2.owner.id = ATD_USER_ID
      ∨ a2.classification.domain_category = some "Transportation and Mobility" then
    match idv with
    | .str s => some (a2, !(s.data.contains ':'))
    | _ => none
  else
    some (a2, false)

/-- The loop of `extract` over the full-view assets, collecting the retained
ones in input order (lines 71-88). -/
def extractLoop (ids : List Value) : List Asset → Option (List Asset)
  | [] => some []
  | a :: rest => do
    let (a', keep) ← processAsset ids a
    let tail ← extractLoop ids rest
    pure (if keep then a' :: tail else tail)

/-- The pure core of `extract` (lines 68-89). -/
def extract (odp edp : List Asset) : Option (List Asset) := do
  let ids ← odpIds odp
  extractLoop ids edp

/-- The total classification/normalization applied to a full-view asset by
the loop of `extract` (the asset-updating part of `processAsset`): sets
`is_public` and defaults a missing `domain_category` to `""`. -/
def classifyNorm (ids : List Value) (a : Asset) : Asset :=
  { a with
    is_public := some (ids.contains ((dlookup a.resource.fields "id").getD .null)),
    classification := { a.classification with
      domain_category := some (a.classification.domain_category.getD "") } }

/-- The retention predicate of the filter (lines 81-87), on a classified
asset: owner or category match, and a string id without `:`. -/
def keepAsset (a : Asset) : Bool :=
  (a.owner.id == ATD_USER_ID
      || a.classification.domain_category == some "Transportation and Mobility")
    && (match dlookup a.resource.fields "id" with
        | some (.str s) => !(s.data.contains ':')
        | _ => false)

/-- Does the asset carry a string-valued `resource.id`? -/
def hasStrId (a : Asset) : Bool :=
  match dlookup a.resource.fields "id" with
  | some (.str _) => true
  | _ => false

/-! ## Calendar arithmetic (the `datetime` / `pytz` model)

`convert_tz` relies on `datetime.strptime`, `pytz.timezone("UTC")`,
`pytz.timezone("US/Central")` and `strftime`.  The proleptic Gregorian
calendar used by `datetime` is embedded by `toDays` / `daysToCivil`;
the US/Central zone is modelled by `centralOffset` below. -/

/-- Days since 0001-01-01 of a civil date (proleptic Gregorian calendar,
March-shifted formula). -/
def toDays (y m d : Nat) : Nat :=
  let ys := if m ≤ 2 then y - 1 else y
  let mp := if m ≤ 2 then m + 9 else m - 3
  365 * ys + ys / 4 - ys / 100 + ys / 400 + (153 * mp + 2) / 5 + (d - 1) - 306

/-- Year-of-era and (March-based, 0-indexed) day-of-year of a day-of-era,
by cascaded div/mod over centuries, 4-year blocks and years. -/
def yoeDoy (doe : Nat) : Nat × Nat :=
  let n100 := if doe / 36524 ≤ 3 then doe / 36524 else 3
  let r1 := doe - 36524 * n100
  let n4 := r1 / 1461
  let r2 := r1 % 1461
  let n1 := if r2 / 365 ≤ 3 then r2 / 365 else 3
  (100 * n100 + 4 * n4 + n1, r2 - 365 * n1)

/-- Civil date `(y, m, d)` of a day number since 0001-01-01 (inverse of
`toDays`). -/
def daysToCivil (n : Nat) : Nat × Nat × Nat :=
  let era := (n + 306) / 146097
  let p := yoeDoy ((n + 306) % 146097)
  let mp := (5 * p.2 + 2) / 153
  let d := p.2 - (153 * mp + 2) / 5 + 1
  (era * 400 + p.1 + (if mp < 10 then 0 else 1),
   if mp < 10 then mp + 3 else mp - 9, d)

/-- Gregorian leap year. -/
def isLeap (y : Nat) : Bool := y % 4 = 0 && (y % 100 ≠ 0 || y % 400 = 0)

/-- Length of a month. -/
def daysInMonth (y m : Nat) : Nat :=
  if m = 2 then (if isLeap y then 29 else 28)
  else if m = 4 ∨ m = 6 ∨ m = 9 ∨ m = 11 then 30
  else 31

/-- A parsed naive datetime, second precision (fractional seconds are
consumed by the parser and cannot influence the output of `convert_tz`,
whose offsets are whole hours and whose output format drops them). -/
structure Timestamp where
  year : Nat
  month : Nat
  day : Nat
  hour : Nat
  minute : Nat
  second : Nat
deriving DecidableEq, Repr

/-- Validity of a parsed datetime, as enforced by the `datetime`
constructor (`MINYEAR = 1`; day checked against the month length). -/
def validTs (t : Timestamp) : Prop :=
  1 ≤ t.year ∧ 1 ≤ t.month ∧ t.month ≤ 12 ∧ 1 ≤ t.day
    ∧ t.day ≤ daysInMonth t.year t.month
    ∧ t.hour ≤ 23 ∧ t.minute ≤ 59 ∧ t.second ≤ 59

instance : DecidablePred validTs := fun t => by unfold validTs; infer_instance

/-- Seconds since 0001-01-01T00:00:00 of a naive datetime. -/
def epochOf (t : Timestamp) : Nat :=
  toDays t.year t.month t.day * 86400 + t.hour * 3600 + t.minute * 60 + t.second

/-! Parsing `"%Y-%m-%dT%H:%M:%S.%fZ"` like `datetime.strptime`. -/

/-- Is the character an ASCII digit? -/
def isDigitC (c : Char) : Bool := 48 ≤ c.toNat && c.toNat ≤ 57

/-- Numeric value of an ASCII digit character. -/
def digVal (c : Char) : Nat := c.toNat - 48

/-- ASCII digit character of a value below 10. -/
def digChar (n : Nat) : Char := Char.ofNat (48 + n)

/-- Read exactly four digits (strptime's `%Y`). -/
def read4 : List Char → Option (Nat × List Char)
  | c1 :: c2 :: c3 :: c4 :: rest =>
    if isDigitC c1 && isDigitC c2 && isDigitC c3 && isDigitC c4 then
      some (1000 * digVal c1 + 100 * digVal c2 + 10 * digVal c3 + digVal c4, rest)
    else none
  | _ => none

/-- Read one or two digits, greedily (strptime's `%m`, `%d`, `%H`, `%M`,
`%S`; out-of-range values are rejected afterwards by `validTs`, matching
the combined effect of strptime's regexes and the `datetime` constructor). -/
def read2 : List Char → Option (Nat × List Char)
  | c1 :: c2 :: rest =>
    if isDigitC c1 then
      if isDigitC c2 then some (10 * digVal c1 + digVal c2, rest)
      else some (digVal c1, c2 :: rest)
    else none
  | [c1] => if isDigitC c1 then some (digVal c1, []) else none
  | [] => none

/-- Consume up to `k` further digits (the tail of strptime's `%f`). -/
def skipDigits : Nat → List Char → List Char
  | 0, l => l
  | _ + 1, [] => []
  | k + 1, c :: rest => if isDigitC c then skipDigits k rest else c :: rest

/-- Expect one literal character. -/
def expectChar (c : Char) : List Char → Option (List Char)
  | c' :: rest => if c' = c then some rest else none
  | [] => none

/-- A literal separator followed by a one- or two-digit number. -/
def readSep (c : Char) (l : List Char) : Option (Nat × List Char) := do
  let l ← expectChar c l
  read2 l

/-- The date part `"%Y-%m-%d"`. -/
def parseYMD (l : List Char) : Option ((Nat × Nat × Nat) × List Char) := do
  let (y, l) ← read4 l
  let (mo, l) ← readSep '-' l
  let (d, l) ← readSep '-' l
  pure ((y, mo, d), l)

/-- The time part `"T%H:%M:%S"`. -/
def parseHMS (l : List Char) : Option ((Nat × Nat × Nat) × List Char) := do
  let (h, l) ← readSep 'T' l
  let (mi, l) ← readSep ':' l
  let (s, l) ← readSep ':' l
  pure ((h, mi, s), l)

/-- The tail `".%fZ"`: a dot, one to six fractional digits (consumed and
discarded, see `Timestamp`), a literal `Z`, end of string. -/
def parseFracZ (l : List Char) : Option Unit :=
  match expectChar '.' l with
  | none => none
  | some l =>
    match l with
    | c :: rest =>
      if isDigitC c then
        match expectChar 'Z' (skipDigits 5 rest) with
        | some [] => some ()
        | _ => none
      else none
    | [] => none

/-- Parse `"%Y-%m-%dT%H:%M:%S.%fZ"` (line 97): four-digit year, one- or
two-digit month/day/hour/minute/second, literal separators, one to six
fractional digits, a literal `Z`, the whole string consumed, and a valid
calendar datetime (`ValueError` otherwise, i.e. `none`). -/
def parseTs (l : List Char) : Option Timestamp := do
  let (ymd, l) ← parseYMD l
  let (hms, l) ← parseHMS l
  let _ ← parseFracZ l
  let t : Timestamp := ⟨ymd.1, ymd.2.1, ymd.2.2, hms.1, hms.2.1, hms.2.2⟩
  if validTs t then some t else none

/-! The US/Central zone. -/

/-- Day of week of a day number, Sunday = 0 (day 0, 0001-01-01, is a
Monday in the proleptic Gregorian calendar). -/
def dow (n : Nat) : Nat := (n + 1) % 7

/-- The first Sunday on or after day `n`. -/
def sundayOnOrAfter (n : Nat) : Nat := n + (7 - dow n) % 7

/-- Modelled from the library: `pytz.timezone("US/Central")`, restricted to
the post-2007 United States DST rule, which is the rule in force for the
timestamps this pipeline handles: daylight saving time runs from 08:00 UTC
of the second Sunday of March (02:00 standard local time) to 07:00 UTC of
the first Sunday of November (02:00 daylight local time).  `e` is a UTC
instant in seconds since 0001-01-01. -/
def isCDT (e : Nat) : Bool :=
  let y := (daysToCivil (e / 86400)).1
  let start := (sundayOnOrAfter (toDays y 3 1) + 7) * 86400 + 8 * 3600
  let stop := sundayOnOrAfter (toDays y 11 1) * 86400 + 7 * 3600
  decide (start ≤ e) && decide (e < stop)

/-- Seconds that US Central civil time lags behind UTC at the UTC instant
`e`: five hours during daylight saving time, six otherwise. -/
def centralOffset (e : Nat) : Nat := if isCDT e then 18000 else 21600

/-- Two-digit zero-padded rendering. -/
def pad2 (n : Nat) : List Char := [digChar (n / 10 % 10), digChar (n % 10)]

/-- Four-digit zero-padded rendering. -/
def pad4 (n : Nat) : List Char :=
  [digChar (n / 1000 % 10), digChar (n / 100 % 10), digChar (n / 10 % 10), digChar (n % 10)]

/-- `strftime("%Y-%m-%dT%H:%M:%S")` (line 106) of the civil time `e`
seconds after 0001-01-01T00:00:00. -/
def formatCivil (e : Nat) : List Char :=
  let c := daysToCivil (e / 86400)
  pad4 c.1 ++ '-' :: pad2 c.2.1 ++ '-' :: pad2 c.2.2 ++ 'T' :: pad2 (e % 86400 / 3600)
    ++ ':' :: pad2 (e % 86400 % 3600 / 60) ++ ':' :: pad2 (e % 86400 % 60)

/-- The canonical `"%Y-%m-%dT%H:%M:%S"` rendering of a timestamp. -/
def renderTs (t : Timestamp) : List Char :=
  pad4 t.year ++ '-' :: pad2 t.month ++ '-' :: pad2 t.day ++ 'T' :: pad2 t.hour
    ++ ':' :: pad2 t.minute ++ ':' :: pad2 t.second

/-- The canonical input string `"%Y-%m-%dT%H:%M:%S.%fZ"` of a timestamp
with the fractional digits `frac`. -/
def renderInput (t : Timestamp) (frac : List Nat) : List Char :=
  renderTs t ++ '.' :: (frac.map digChar ++ ['Z'])

/-- Embedding of `convert_tz` (lines 92-108) on one field value.
`some .null` is Python's `None` return; `none` is an uncaught exception
(strptime `ValueError` on a malformed string, `TypeError` on a truthy
non-string, `OverflowError` when the conversion leaves the `datetime`
range). -/
def convert_tz (v : Value) : Option Value :=
  match v with
  | .null => some .null
  | .bool false => some .null
  | .bool true => none
  | .num n => if n = 0 then some .null else none
  | .str s =>
    if s = "" then some .null
    else
      match parseTs s.data with
      | none => none
      | some t =>
        let e := epochOf t
        let off := centralOffset e
        if e < off then none
        else some (.str (String.mk (formatCivil (e - off))))

/-! ## `transform` (lines 111-183): flattening -/

/-- Python `str()` on a scalar value (used on tags, line 161). -/
def pyStr : Value → String
  | .str s => s
  | .num n => toString n
  | .bool true => "True"
  | .bool false => "False"
  | .null => "None"

/-- `{key: row["resource"][key] for key in keys}` (line 136): the
projection of a dict onto a key list, in key-list order; `none` models the
KeyError on a missing key. -/
def projectFields (d : Dict) : List String → Option Dict
  | [] => some []
  | k :: rest => do
    let v ← dlookup d k
    let tail ← projectFields d rest
    pure ((k, v) :: tail)

/-- `filtered_data[k] = convert_tz(filtered_data[k])` (lines 147-155). -/
def convField (rec : Dict) (k : String) : Option Dict := do
  let v ← dlookup rec k
  let v' ← convert_tz v
  pure (dinsert rec k v')

/-- The merge of `domain_private_metadata` then `domain_metadata` into one
dict (lines 166-172): private pairs are inserted first and `domain_metadata`
pairs afterwards, so a later insertion overwrites an earlier one. -/
def mergeMeta (priv md : List (String × Value)) : Dict :=
  (priv ++ md).foldl (fun acc kv => dinsert acc kv.1 kv.2) []

/-- One step of the seven-field loop (lines 175-179): copy the merged
metadata value when present, else the empty string. -/
def fieldStep (metadata : Dict) (acc : Dict) (p : String × String) : Dict :=
  match dlookup metadata p.1 with
  | some v => dinsert acc p.2 v
  | none => dinsert acc p.2 (.str "")

/-- The binding of a key in a key/value-pair list where a later pair wins —
the value such a list contributes to a dict built by insertions. -/
def lastVal : List (String × Value) → String → Option Value
  | [], _ => none
  | kv :: rest, k =>
    match lastVal rest k with
    | some v => some v
    | none => if kv.1 = k then some kv.2 else none

/-- Lines 127-135: copy the three `page_views` members of
`row["resource"]["page_views"]` into `row["resource"]` itself; the result
is the new `row["resource"]` member dict. -/
def pageViewsFields (row : Asset) : Option Dict := do
  let pv ← row.resource.page_views
  let w ← dlookup pv "page_views_last_week"
  let mth ← dlookup pv "page_views_last_month"
  let tot ← dlookup pv "page_views_total"
  pure (dinsert (dinsert (dinsert row.resource.fields
    "page_views_last_week" w) "page_views_last_month" mth) "page_views_total" tot)

/-- Lines 138-144: `dataset_url` from `is_public` (public base URL if
public, privileged base URL otherwise) and the `is_public` flag itself;
string concatenation with a non-string id raises (`none`). -/
def urlFields (isPub : Bool) (fd0 : Dict) : Option Dict := do
  let idv ← dlookup fd0 "id"
  let idStr ← (match idv with | .str s => some s | _ => none)
  pure (if isPub then
      dinsert (dinsert fd0 "dataset_url" (.str (BASE_URL ++ idStr))) "is_public" (.bool true)
    else
      dinsert (dinsert fd0 "dataset_url" (.str (EDP_URL ++ idStr))) "is_public" (.bool false))

/-- Lines 146-155: convert the five timestamp fields to Central time. -/
def tzFields (fd : Dict) : Option Dict := do
  let fd ← convField fd "updatedAt"
  let fd ← convField fd "createdAt"
  let fd ← convField fd "metadata_updated_at"
  let fd ← convField fd "data_updated_at"
  convField fd "publication_date"

/-- Lines 159-164: the comma-joined `tags` field (each tag through
`str()`); an absent `domain_tags` yields the empty string. -/
def tagsField (a : Asset) (fd : Dict) : Dict :=
  match a.classification.domain_tags with
  | some tags => dinsert fd "tags" (.str (String.intercalate ", " (tags.map pyStr)))
  | none => dinsert fd "tags" (.str "")

/-- Lines 166-179: merge the two metadata sources and copy the seven
publishing-metadata fields; `domain_metadata` is accessed unconditionally
(KeyError when missing). -/
def metaFields (a : Asset) (fd : Dict) : Option Dict := do
  let md ← a.classification.domain_metadata
  let metadata := mergeMeta (a.classification.domain_private_metadata.getD []) md
  pure (FIELDS.foldl (fieldStep metadata) fd)

/-- Embedding of one iteration of the loop of `transform` (lines 126-181).
Returns the asset as the loop leaves it (the three `page_views` writes into
`row["resource"]` are in-place) together with the flattened output record;
`none` models an uncaught KeyError/TypeError on a malformed asset. -/
def transform_row (row : Asset) : Option (Asset × Dict) := do
  let fields1 ← pageViewsFields row
  let row1 : Asset := { row with resource := { row.resource with fields := fields1 } }
  let fd0 ← projectFields fields1 OUT_FIELDS
  let isPub ← row1.is_public
  let fd1 ← urlFields isPub fd0
  let fd6 ← tzFields fd1
  let dn ← row1.owner.display_name
  let fd8 := tagsField row1 (dinsert fd6 "owner_display_name" dn)
  let fd9 ← metaFields row1 fd8
  pure (row1, fd9)

/-- The loop of `transform` over all rows (lines 125-183): each pair is the
row as left by the loop and its flattened output record. -/
def transform : List Asset → Option (List (Asset × Dict))
  | [] => some []
  | a :: rest => do
    let p ← transform_row a
    let tail ← transform rest
    pure (p :: tail)

/-- The fixed output schema: the keys every flattened record carries, in
insertion order. -/
def SCHEMA : List String :=
  OUT_FIELDS ++ ["dataset_url", "is_public", "owner_display_name", "tags"]
    ++ FIELDS.map Prod.snd

/-- Well-formedness of an asset, as needed by `transform_row` to run
without an exception: the `page_views` object and its three members, the
eleven remaining `OUT_FIELDS` members, a string `id`, the `is_public` flag
written by `extract`, an owner display name, a `domain_metadata` list, and
five timestamp members `convert_tz` accepts. -/
def wellFormedAsset (a : Asset) : Bool :=
  (match a.resource.page_views with
   | some pv =>
     (dlookup pv "page_views_last_week").isSome
       && (dlookup pv "page_views_last_month").isSome
       && (dlookup pv "page_views_total").isSome
   | none => false)
  && hasStrId a
  && (OUT_FIELDS.all (fun k =>
       k = "page_views_last_week" || k = "page_views_last_month"
         || k = "page_views_total" || dmem a.resource.fields k))
  && a.is_public.isSome
  && a.owner.display_name.isSome
  && a.classification.domain_metadata.isSome
  && (["updatedAt", "createdAt", "metadata_updated_at", "data_updated_at",
       "publication_date"].all (fun k =>
        match dlookup a.resource.fields k with
        | some v => (convert_tz v).isSome
        | none => false))

/-! ## `get_row_counts` (lines 186-216): row-count enrichment -/

/-- One `fetch` task (lines 186-193), for one resource id: the HTTP query
and its `res[0]["count"]` are the oracle `counts`; the task yields
`{"id": resource_id, "row_count": count}`, or `none` when the query raises
or times out. -/
def fetch (counts : Value → Option Value) (idv : Value) : Option (Value × Value) :=
  (counts idv).map (fun c => (idv, c))

/-- The task-creation loop (lines 204-207): the ids of the
`"dataset"`-typed rows, in input order; `none` models the KeyError on a
missing `type` or `id`. -/
def datasetIds : List Dict → Option (List Value)
  | [] => some []
  | r :: rest => do
    let t ← dlookup r "type"
    if t = .str "dataset" then do
      let idv ← dlookup r "id"
      let tail ← datasetIds rest
      pure (idv :: tail)
    else datasetIds rest

/-- The merge-back loop (lines 211-214): for each result, every row whose
`id` equals the result's id receives its `row_count` (rows are mutated in
place, so later results see earlier updates). -/
def mergeCounts : List (Value × Value) → List Dict → Option (List Dict)
  | [], data => some data
  | res :: rest, data => do
    let data' ← data.mapM (fun row => do
      let idv ← dlookup row "id"
      pure (if idv = res.1 then dinsert row "row_count" res.2 else row))
    mergeCounts rest data'

/-- Embedding of `get_row_counts` (lines 196-216).  `asyncio.gather`
without `return_exceptions` re-raises the first task failure, so a single
failed fetch fails the whole call (`none`): no partial result survives. -/
def get_row_counts (counts : Value → Option Value) (data : List Dict) :
    Option (List Dict) := do
  let ids ← datasetIds data
  let results ← ids.mapM (fetch counts)
  mergeCounts results data

/-- The per-row outcome of a successful enrichment run: a `"dataset"`-typed
row gains `row_count` holding the oracle's value verbatim; any other row is
returned untouched. -/
def enrichRow (counts : Value → Option Value) (row : Dict) : Dict :=
  if dlookup row "type" = some (.str "dataset") then
    match dlookup row "id" with
    | some idv =>
      match counts idv with
      | some c => dinsert row "row_count" c
      | none => row
    | none => row
  else row

/-- The per-row effect of the merge-back loop for one list of fetch
results, reading the row's `id` before each result is applied (the row is
mutated between results, but `row_count` writes never change `id`). -/
def applyResults : List (Value × Value) → Dict → Option Dict
  | [], row => some row
  | res :: rest, row => do
    let idv ← dlookup row "id"
    applyResults rest (if idv = res.1 then dinsert row "row_count" res.2 else row)

/-! ## Verification auxiliaries: proof-side definitions and fixtures -/

/-- The invariants of the month/day extraction from a March-based
day-of-year (checked exhaustively for `doy < 366`). -/
def mdOk (doy : Nat) : Prop :=
  let mp := (5 * doy + 2) / 153
  let dd := doy - (153 * mp + 2) / 5 + 1
  mp ≤ 11 ∧ (153 * mp + 2) / 5 ≤ doy ∧ 1 ≤ dd ∧
  (mp < 10 → dd ≤ (if mp = 1 ∨ mp = 3 ∨ mp = 6 ∨ mp = 8 then 30 else 31)) ∧
  (mp = 10 → dd ≤ 31) ∧
  (mp = 11 → dd ≤ 29 ∧ (dd = 29 → doy = 365))

instance : DecidablePred mdOk := fun doy => by unfold mdOk; infer_instance

/-- A concrete well-formed full-view asset (the §8 scenario of the design:
category match, not owned by the publishing account's id under test,
private/non-private metadata clash on the department key, one non-string
tag). -/
def sampleAsset : Asset := {
  resource := {
    fields := [("id", .str "abcd-1234"), ("name", .str "Test"), ("description", .null),
      ("attribution", .null), ("type", .str "dataset"),
      ("updatedAt", .str "2023-03-12T07:00:00.000Z"), ("createdAt", .null),
      ("metadata_updated_at", .null), ("data_updated_at", .null),
      ("download_count", .num 5), ("publication_date", .null)],
    page_views := some [("page_views_last_week", .num 1), ("page_views_last_month", .num 2),
      ("page_views_total", .num 3)] },
  classification := {
    domain_category := some "Transportation and Mobility",
    domain_tags := some [.str "x", .num 7],
    domain_metadata := some [("Ownership_Department-name", .str "DTS")],
    domain_private_metadata := some [("Ownership_Department-name", .str "SECRET"),
      ("P", .str "q")] },
  owner := { id := "8t3r-wq64", display_name := some (.str "DTS") },
  is_public := none }

/-- `sampleAsset` after classification against an empty public view. -/
def sampleClassified : Asset := classifyNorm [] sampleAsset

/-- A `"dataset"`-typed output row. -/
def dsRow : Dict := [("type", .str "dataset"), ("id", .str "abcd-1234")]

/-- A second `"dataset"`-typed output row. -/
def dsRow2 : Dict := [("type", .str "dataset"), ("id", .str "bbbb-0002")]

/-- A non-dataset output row. -/
def chartRow : Dict := [("type", .str "chart"), ("id", .str "zzzz-0001")]

/-- A count oracle that answers every query, with a string count — the
shape the §6 count endpoint (`[{count: <string-or-number>}]`) returns. -/
def strCounts : Value → Option Value :=
  fun v => if v = .str "abcd-1234" then some (.str "53") else some (.str "9")

/-- A count oracle whose query for `"abcd-1234"` fails and which answers
every other query. -/
def failCounts : Value → Option Value :=
  fun v => if v = .str "abcd-1234" then none else some (.num 7)

/-- The flattening of `sampleClassified` (asset as mutated, output record). -/
def sampleFlattened : Asset × Dict :=
  (transform_row sampleClassified).getD (sampleClassified, [])

/-- `dsRow` after a successful enrichment against `strCounts`. -/
def dsRowEnriched : Dict :=
  [("type", .str "dataset"), ("id", .str "abcd-1234"), ("row_count", .str "53")]

/-! ## Dict lemmas -/

theorem dkeys_cons (pk : String) (pv : Value) (rest : Dict) :
    dkeys ((pk, pv) :: rest) = pk :: dkeys rest := rfl

theorem dlookup_dinsert (d : Dict) (k : String) (v : Value) (k' : String) :
    dlookup (dinsert d k v) k' = if k' = k then some v else dlookup d k' := by
  induction d with
  | nil =>
    rcases eq_or_ne k' k with h | h
    · rw [if_pos h]; simp [dinsert, dlookup, h.symm]
    · rw [if_neg h]; simp [dinsert, dlookup, Ne.symm h]
  | cons p rest ih =>
    obtain ⟨pk, pv⟩ := p
    simp only [dinsert]
    by_cases hp : pk = k
    · rw [if_pos hp]
      rcases eq_or_ne k' k with h | h
      · rw [if_pos h]
        simp only [dlookup]
        rw [if_pos h.symm]
      · rw [if_neg h]
        simp only [dlookup]
        rw [if_neg (fun hh : k = k' => h hh.symm), if_neg (fun hh : pk = k' => h (hh.symm.trans hp))]
    · rw [if_neg hp]
      rcases eq_or_ne pk k' with h | h
      · simp only [dlookup]
        rw [if_pos h, if_pos h, if_neg (fun hh : k' = k => hp (h.trans hh))]
      · simp only [dlookup]
        rw [if_neg h, if_neg h, ih]

theorem dlookup_dinsert_self (d : Dict) (k : String) (v : Value) :
    dlookup (dinsert d k v) k = some v := by
  rw [dlookup_dinsert, if_pos rfl]

theorem dlookup_dinsert_ne (d : Dict) (k : String) (v : Value) (k' : String)
    (h : k' ≠ k) : dlookup (dinsert d k v) k' = dlookup d k' := by
  rw [dlookup_dinsert, if_neg h]

theorem dkeys_dinsert_mem (d : Dict) (k : String) (v : Value) (h : k ∈ dkeys d) :
    dkeys (dinsert d k v) = dkeys d := by
  induction d with
  | nil => simp [dkeys] at h
  | cons p rest ih =>
    obtain ⟨pk, pv⟩ := p
    rw [dkeys_cons, List.mem_cons] at h
    simp only [dinsert]
    by_cases hp : pk = k
    · rw [if_pos hp, dkeys_cons, dkeys_cons, hp]
    · rw [if_neg hp, dkeys_cons, dkeys_cons]
      rcases h with h | h
      · exact absurd h.symm hp
      · rw [ih h]

theorem dkeys_dinsert_new (d : Dict) (k : String) (v : Value) (h : ¬ k ∈ dkeys d) :
    dkeys (dinsert d k v) = dkeys d ++ [k] := by
  induction d with
  | nil => simp [dinsert, dkeys]
  | cons p rest ih =>
    obtain ⟨pk, pv⟩ := p
    rw [dkeys_cons, List.mem_cons, not_or] at h
    simp only [dinsert]
    rw [if_neg (fun hh => h.1 hh.symm), dkeys_cons, dkeys_cons, List.cons_append, ih h.2]

theorem dlookup_none_of_not_mem (d : Dict) (k : String) (h : ¬ k ∈ dkeys d) :
    dlookup d k = none := by
  induction d with
  | nil => rfl
  | cons p rest ih =>
    obtain ⟨pk, pv⟩ := p
    rw [dkeys_cons, List.mem_cons, not_or] at h
    simp only [dlookup]
    rw [if_neg (fun hh => h.1 hh.symm)]
    exact ih h.2

theorem dlookup_isSome_of_mem (d : Dict) (k : String) (h : k ∈ dkeys d) :
    (dlookup d k).isSome = true := by
  induction d with
  | nil => simp [dkeys] at h
  | cons p rest ih =>
    obtain ⟨pk, pv⟩ := p
    rw [dkeys_cons, List.mem_cons] at h
    simp only [dlookup]
    by_cases hp : pk = k
    · rw [if_pos hp]; rfl
    · rw [if_neg hp]
      rcases h with h | h
      · exact absurd h.symm hp
      · exact ih h

theorem dmem_eq_true_iff (d : Dict) (k : String) : dmem d k = true ↔ k ∈ dkeys d := by
  induction d with
  | nil => simp [dmem, dkeys]
  | cons p rest ih =>
    obtain ⟨pk, pv⟩ := p
    rw [dkeys_cons, List.mem_cons]
    simp only [dmem, Bool.or_eq_true, beq_iff_eq]
    rw [ih]
    constructor
    · rintro (h | h)
      · exact Or.inl h.symm
      · exact Or.inr h
    · rintro (h | h)
      · exact Or.inl h.symm
      · exact Or.inr h

/-! ## Lemmas about `extract` -/

theorem hasStrId_inv (a : Asset) (h : hasStrId a = true) :
    ∃ s, dlookup a.resource.fields "id" = some (.str s) := by
  unfold hasStrId at h
  cases hl : dlookup a.resource.fields "id" with
  | none => rw [hl] at h; simp at h
  | some v =>
    cases v with
    | str s => exact ⟨s, rfl⟩
    | num n => rw [hl] at h; simp at h
    | bool b => rw [hl] at h; simp at h
    | null => rw [hl] at h; simp at h


theorem mapM_isSome {α β : Type} (f : α → Option β) :
    ∀ l : List α, (∀ x ∈ l, (f x).isSome = true) → ∃ ys, l.mapM f = some ys := by
  intro l
  induction l with
  | nil => exact fun _ => ⟨[], rfl⟩
  | cons x rest ih =>
    intro h
    obtain ⟨y, hy⟩ := Option.isSome_iff_exists.mp (h x (List.mem_cons_self x rest))
    obtain ⟨ys, hys⟩ := ih (fun b hb => h b (List.mem_cons_of_mem _ hb))
    refine ⟨y :: ys, ?_⟩
    rw [List.mapM_cons, hy, hys]
    rfl

theorem classifyNorm_resource (ids : List Value) (a : Asset) :
    (classifyNorm ids a).resource = a.resource := rfl

theorem classifyNorm_owner (ids : List Value) (a : Asset) :
    (classifyNorm ids a).owner = a.owner := rfl

theorem processAsset_eq (ids : List Value) (a : Asset) (s : String)
    (hid : dlookup a.resource.fields "id" = some (.str s)) :
    processAsset ids a = some (classifyNorm ids a, keepAsset (classifyNorm ids a)) := by
  unfold processAsset classifyNorm keepAsset
  rw [hid]
  simp only [Option.getD_some, Option.bind_eq_bind, Option.some_bind]
  by_cases hP : a.owner.id = ATD_USER_ID
      ∨ some (a.classification.domain_category.getD "") = some "Transportation and Mobility"
  · rw [if_pos hP]
    have hb : (a.owner.id == ATD_USER_ID
        || some (a.classification.domain_category.getD "")
          == some "Transportation and Mobility") = true := by
      rcases hP with h | h <;> simp [h]
    rw [hb]
    simp
  · rw [if_neg hP]
    have hb : (a.owner.id == ATD_USER_ID
        || some (a.classification.domain_category.getD "")
          == some "Transportation and Mobility") = false := by
      rcases not_or.mp hP with ⟨h1, h2⟩
      have h2' : a.classification.domain_category.getD "" ≠ "Transportation and Mobility" :=
        fun hh => h2 (by rw [hh])
      simp [h1, h2']
    rw [hb]
    simp

theorem extractLoop_eq (ids : List Value) (edp : List Asset)
    (hwf : ∀ a ∈ edp, hasStrId a = true) :
    extractLoop ids edp = some ((edp.map (classifyNorm ids)).filter keepAsset) := by
  induction edp with
  | nil => rfl
  | cons a rest ih =>
    obtain ⟨s, hid⟩ := hasStrId_inv a (hwf a (List.mem_cons_self a rest))
    simp only [extractLoop, processAsset_eq ids a s hid,
      ih (fun b hb => hwf b (List.mem_cons_of_mem _ hb)),
      Option.bind_eq_bind, Option.some_bind, List.map_cons, List.filter_cons]
    split
    · rfl
    · rfl

/-- Claim C1: in the classification step of `extract`, every full-view
asset is classified — `is_public` is set to `True` exactly when the
asset's `resource.id` occurs in the list of public-view ids — no full-view
asset is skipped, and every produced asset stems from the full view, so an
id present only in the public view yields no output asset. -/
theorem C1_classification_totality (odp edp : List Asset)
    (hodp : ∀ a ∈ odp, (dlookup a.resource.fields "id").isSome = true)
    (hwf : ∀ a ∈ edp, hasStrId a = true) :
    ∃ ids out, odpIds odp = some ids ∧ extract odp edp = some out
      ∧ (∀ a ∈ edp, ∃ a' keep idv,
            processAsset ids a = some (a', keep)
              ∧ dlookup a.resource.fields "id" = some idv
              ∧ a'.is_public = some (ids.contains idv))
      ∧ (∀ b ∈ out, ∃ a ∈ edp,
            dlookup b.resource.fields "id" = dlookup a.resource.fields "id") := by
  obtain ⟨ids, hids0⟩ := mapM_isSome _ odp hodp
  have hids : odpIds odp = some ids := hids0
  refine ⟨ids, (edp.map (classifyNorm ids)).filter keepAsset, hids, ?_, ?_, ?_⟩
  · unfold extract
    rw [hids]
    simpa using extractLoop_eq ids edp hwf
  · intro a ha
    obtain ⟨s, hid⟩ := hasStrId_inv a (hwf a ha)
    refine ⟨classifyNorm ids a, keepAsset (classifyNorm ids a), .str s,
      processAsset_eq ids a s hid, hid, ?_⟩
    unfold classifyNorm
    rw [hid]
    rfl
  · intro b hb
    obtain ⟨a, ha, rfl⟩ := List.mem_map.mp (List.mem_filter.mp hb).1
    exact ⟨a, ha, rfl⟩

/-- Witness for C1 at a concrete public view and full view. -/
theorem C1_classification_totality_witness :
    (∀ a ∈ ([] : List Asset), (dlookup a.resource.fields "id").isSome = true)
      ∧ (∀ a ∈ [sampleAsset], hasStrId a = true)
      ∧ (∃ ids out, odpIds [] = some ids ∧ extract [] [sampleAsset] = some out
          ∧ (∀ a ∈ [sampleAsset], ∃ a' keep idv,
                processAsset ids a = some (a', keep)
                  ∧ dlookup a.resource.fields "id" = some idv
                  ∧ a'.is_public = some (ids.contains idv))
          ∧ (∀ b ∈ out, ∃ a ∈ [sampleAsset],
                dlookup b.resource.fields "id" = dlookup a.resource.fields "id")) :=
  ⟨by decide, by decide,
    C1_classification_totality [] [sampleAsset] (by decide) (by decide)⟩

/-- Claim C2: the filter of `extract` retains a classified asset exactly
when (owner matches the configured owner id OR the domain category equals
"Transportation and Mobility") AND the id contains no `:`; a missing
`domain_category` is defaulted to the empty string without an exception;
the retained assets are the order-preserving filter of the classified
input sequence. -/
theorem C2_filter_soundness (odp edp : List Asset) (ids : List Value) (out : List Asset)
    (hids : odpIds odp = some ids)
    (hwf : ∀ a ∈ edp, hasStrId a = true)
    (hout : extract odp edp = some out) :
    out = (edp.map (classifyNorm ids)).filter keepAsset
      ∧ (∀ b ∈ out,
          (b.owner.id = ATD_USER_ID
              ∨ b.classification.domain_category = some "Transportation and Mobility")
            ∧ ∃ s, dlookup b.resource.fields "id" = some (.str s)
                ∧ s.data.contains ':' = false)
      ∧ (∀ a ∈ edp, (classifyNorm ids a).classification.domain_category
            = some (a.classification.domain_category.getD "")) := by
  unfold extract at hout
  rw [hids] at hout
  simp only [Option.bind_eq_bind, Option.some_bind, extractLoop_eq ids edp hwf,
    Option.some.injEq] at hout
  subst hout
  refine ⟨rfl, ?_, fun a _ => rfl⟩
  intro b hb
  have hk := (List.mem_filter.mp hb).2
  unfold keepAsset at hk
  rw [Bool.and_eq_true] at hk
  obtain ⟨h1, h2⟩ := hk
  constructor
  · rw [Bool.or_eq_true, beq_iff_eq, beq_iff_eq] at h1
    exact h1
  · cases hl : dlookup b.resource.fields "id" with
    | none => rw [hl] at h2; simp at h2
    | some v =>
      cases v with
      | str s =>
        rw [hl] at h2
        simp only [Bool.not_eq_true'] at h2
        exact ⟨s, rfl, h2⟩
      | num n => rw [hl] at h2; simp at h2
      | bool c => rw [hl] at h2; simp at h2
      | null => rw [hl] at h2; simp at h2

/-- Witness for C2 at a concrete public view and full view. -/
theorem C2_filter_soundness_witness :
    odpIds [] = some []
      ∧ (∀ a ∈ [sampleAsset], hasStrId a = true)
      ∧ extract [] [sampleAsset] = some [sampleClassified]
      ∧ ([sampleClassified]
            = (([sampleAsset].map (classifyNorm [])).filter keepAsset)
          ∧ (∀ b ∈ [sampleClassified],
              (b.owner.id = ATD_USER_ID
                  ∨ b.classification.domain_category
                    = some "Transportation and Mobility")
                ∧ ∃ s, dlookup b.resource.fields "id" = some (.str s)
                    ∧ s.data.contains ':' = false)
          ∧ (∀ a ∈ [sampleAsset], (classifyNorm [] a).classification.domain_category
                = some (a.classification.domain_category.getD ""))) :=
  ⟨by decide, by decide, by decide,
    C2_filter_soundness [] [sampleAsset] [] [sampleClassified]
      (by decide) (by decide) (by decide)⟩

/-! ## Calendar lemmas: `toDays` / `daysToCivil` are mutually inverse -/

theorem yoe_core (doe n100 r1 n4 r2 n1 : Nat) (hdoe : doe < 146097)
    (h100 : (doe / 36524 ≤ 3 ∧ n100 = doe / 36524) ∨ (3 < doe / 36524 ∧ n100 = 3))
    (hr1 : r1 = doe - 36524 * n100)
    (h4 : n4 = r1 / 1461)
    (hr2 : r2 = r1 % 1461)
    (h1 : (r2 / 365 ≤ 3 ∧ n1 = r2 / 365) ∨ (3 < r2 / 365 ∧ n1 = 3)) :
    365 * (100 * n100 + 4 * n4 + n1) + (100 * n100 + 4 * n4 + n1) / 4
        - (100 * n100 + 4 * n4 + n1) / 100 + (r2 - 365 * n1) = doe
      ∧ 100 * n100 + 4 * n4 + n1 ≤ 399 ∧ r2 - 365 * n1 ≤ 365
      ∧ (r2 - 365 * n1 = 365 →
          (100 * n100 + 4 * n4 + n1 + 1) % 4 = 0 ∧
            ((100 * n100 + 4 * n4 + n1 + 1) % 100 ≠ 0 ∨
              (100 * n100 + 4 * n4 + n1 + 1) % 400 = 0)) := by
  have hb100 : n100 ≤ 3 := by rcases h100 with ⟨h, h'⟩ | ⟨h, h'⟩ <;> omega
  have hb4 : n4 ≤ 24 := by omega
  have hb1 : n1 ≤ 3 := by rcases h1 with ⟨h, h'⟩ | ⟨h, h'⟩ <;> omega
  have hy4 : (100 * n100 + 4 * n4 + n1) / 4 = 25 * n100 + n4 := by
    rw [show 100 * n100 + 4 * n4 + n1 = 4 * (25 * n100 + n4) + n1 from by ring,
      Nat.mul_add_div (by norm_num), Nat.div_eq_of_lt (by omega), Nat.add_zero]
  have hy100 : (100 * n100 + 4 * n4 + n1) / 100 = n100 := by
    rw [show 100 * n100 + 4 * n4 + n1 = 100 * n100 + (4 * n4 + n1) from by ring,
      Nat.mul_add_div (by norm_num), Nat.div_eq_of_lt (by omega), Nat.add_zero]
  refine ⟨by omega, by omega, by omega, fun hdy => ⟨by omega, by omega⟩⟩

theorem yoeDoy_spec (doe : Nat) (h : doe < 146097) :
    365 * (yoeDoy doe).1 + (yoeDoy doe).1 / 4 - (yoeDoy doe).1 / 100 + (yoeDoy doe).2 = doe
      ∧ (yoeDoy doe).1 ≤ 399 ∧ (yoeDoy doe).2 ≤ 365
      ∧ ((yoeDoy doe).2 = 365 →
          ((yoeDoy doe).1 + 1) % 4 = 0 ∧
            (((yoeDoy doe).1 + 1) % 100 ≠ 0 ∨ ((yoeDoy doe).1 + 1) % 400 = 0)) := by
  unfold yoeDoy
  simp only
  refine yoe_core doe _ _ _ _ _ h ?_ rfl rfl rfl ?_
  · rcases le_or_lt (doe / 36524) 3 with hc | hc
    · exact Or.inl ⟨hc, if_pos hc⟩
    · exact Or.inr ⟨hc, if_neg (by omega)⟩
  · rcases le_or_lt
        ((doe - 36524 * (if doe / 36524 ≤ 3 then doe / 36524 else 3)) % 1461 / 365) 3 with hc | hc
    · exact Or.inl ⟨hc, if_pos hc⟩
    · exact Or.inr ⟨hc, if_neg (by omega)⟩

set_option maxRecDepth 4000 in
theorem mdOk_all : ∀ doy : Nat, doy < 366 → mdOk doy := by decide

set_option maxHeartbeats 1600000 in
theorem daysToCivil_toDays (n : Nat) :
    toDays (daysToCivil n).1 (daysToCivil n).2.1 (daysToCivil n).2.2 = n
      ∧ 1 ≤ (daysToCivil n).1
      ∧ 1 ≤ (daysToCivil n).2.1 ∧ (daysToCivil n).2.1 ≤ 12
      ∧ 1 ≤ (daysToCivil n).2.2
      ∧ (daysToCivil n).2.2 ≤ daysInMonth (daysToCivil n).1 (daysToCivil n).2.1 := by
  have hdoe : (n + 306) % 146097 < 146097 := Nat.mod_lt _ (by norm_num)
  obtain ⟨hsum, hyoe, hdoy, hleap⟩ := yoeDoy_spec ((n + 306) % 146097) hdoe
  have hdivmod : 146097 * ((n + 306) / 146097) + (n + 306) % 146097 = n + 306 :=
    Nat.div_add_mod _ _
  obtain ⟨hmp11, hmple, hdd1, hd30, hd10, hd11⟩ :=
    mdOk_all (yoeDoy ((n + 306) % 146097)).2 (by omega)
  set era := (n + 306) / 146097 with hera
  set p := yoeDoy ((n + 306) % 146097) with hp
  set mp := (5 * p.2 + 2) / 153 with hmp
  set dd := p.2 - (153 * mp + 2) / 5 + 1 with hdd
  have h4 : (era * 400 + p.1) / 4 = 100 * era + p.1 / 4 := by
    rw [show era * 400 + p.1 = 4 * (100 * era) + p.1 from by ring,
      Nat.mul_add_div (by norm_num)]
  have h100 : (era * 400 + p.1) / 100 = 4 * era + p.1 / 100 := by
    rw [show era * 400 + p.1 = 100 * (4 * era) + p.1 from by ring,
      Nat.mul_add_div (by norm_num)]
  have h400 : (era * 400 + p.1) / 400 = era := by
    rw [show era * 400 + p.1 = 400 * era + p.1 from by ring,
      Nat.mul_add_div (by norm_num), Nat.div_eq_of_lt (by omega), Nat.add_zero]
  have hciv : daysToCivil n
      = (era * 400 + p.1 + (if mp < 10 then 0 else 1),
         if mp < 10 then mp + 3 else mp - 9, dd) := rfl
  rw [hciv]
  simp only
  rcases Nat.lt_or_ge mp 10 with hc | hc
  · -- month = mp + 3 (March .. December), year = era * 400 + p.1
    rw [if_pos hc, if_pos hc, Nat.add_zero]
    refine ⟨?_, by omega, by omega, by omega, by omega, ?_⟩
    · unfold toDays
      simp only
      rw [if_neg (show ¬ mp + 3 ≤ 2 from by omega),
        if_neg (show ¬ mp + 3 ≤ 2 from by omega),
        show mp + 3 - 3 = mp from by omega]
      omega
    · unfold daysInMonth
      rw [if_neg (show ¬ mp + 3 = 2 from by omega)]
      by_cases hsp : mp = 1 ∨ mp = 3 ∨ mp = 6 ∨ mp = 8
      · rw [if_pos (show mp + 3 = 4 ∨ mp + 3 = 6 ∨ mp + 3 = 9 ∨ mp + 3 = 11 from by omega)]
        rw [if_pos hsp] at hd30
        omega
      · rw [if_neg (show ¬ (mp + 3 = 4 ∨ mp + 3 = 6 ∨ mp + 3 = 9 ∨ mp + 3 = 11) from by omega)]
        rw [if_neg hsp] at hd30
        omega
  · -- month = mp - 9 (January, February), year = era * 400 + p.1 + 1
    have hm1011 : mp = 10 ∨ mp = 11 := by omega
    rw [if_neg (show ¬ mp < 10 from by omega), if_neg (show ¬ mp < 10 from by omega)]
    refine ⟨?_, by omega, by omega, by omega, by omega, ?_⟩
    · unfold toDays
      simp only
      rw [if_pos (show mp - 9 ≤ 2 from by omega), if_pos (show mp - 9 ≤ 2 from by omega),
        show era * 400 + p.1 + 1 - 1 = era * 400 + p.1 from by omega,
        show mp - 9 + 9 = mp from by omega]
      omega
    · unfold daysInMonth
      rcases hm1011 with hm | hm
      · -- January
        rw [if_neg (show ¬ mp - 9 = 2 from by omega),
          if_neg (show ¬ (mp - 9 = 4 ∨ mp - 9 = 6 ∨ mp - 9 = 9 ∨ mp - 9 = 11) from by omega)]
        omega
      · -- February
        rw [if_pos (show mp - 9 = 2 from by omega)]
        obtain ⟨hd29, hd29eq⟩ := hd11 hm
        by_cases hl : isLeap (era * 400 + p.1 + 1) = true
        · rw [if_pos hl]; omega
        · rw [if_neg hl]
          simp only [isLeap, Bool.and_eq_true, decide_eq_true_eq, Bool.or_eq_true,
            Bool.not_eq_true, not_and, not_or, Bool.and_eq_false_iff] at hl
          rcases Nat.lt_or_ge dd 29 with hlt | hge
          · omega
          · exfalso
            have hde : dd = 29 := by omega
            have h365 := hd29eq hde
            obtain ⟨hm4, hrest⟩ := hleap h365
            rcases hrest with h' | h' <;> omega

theorem toDays_lb (y m d : Nat) (hm : 1 ≤ m) : 365 * (y - 1) ≤ toDays y m d + 306 := by
  unfold toDays
  simp only
  split <;> omega

theorem toDays_ub (y m d : Nat) (hm : m ≤ 12) (hd : d ≤ 31) :
    toDays y m d ≤ 366 * y + 368 := by
  unfold toDays
  simp only
  split <;> omega

theorem daysInMonth_le (y m : Nat) : daysInMonth y m ≤ 31 := by
  unfold daysInMonth
  split
  · split <;> omega
  · split <;> omega

/-! ## Parser / printer round trip -/

theorem expectChar_cons (c c' : Char) (rest : List Char) :
    expectChar c (c' :: rest) = if c' = c then some rest else none := rfl

theorem isDigitC_digChar (a : Nat) (h : a < 10) : isDigitC (digChar a) = true := by
  interval_cases a <;> decide

theorem digVal_digChar (a : Nat) (h : a < 10) : digVal (digChar a) = a := by
  interval_cases a <;> decide

theorem read4_pad4 (y : Nat) (h : y ≤ 9999) (rest : List Char) :
    read4 (pad4 y ++ rest) = some (y, rest) := by
  have h1 : y / 1000 % 10 < 10 := Nat.mod_lt _ (by norm_num)
  have h2 : y / 100 % 10 < 10 := Nat.mod_lt _ (by norm_num)
  have h3 : y / 10 % 10 < 10 := Nat.mod_lt _ (by norm_num)
  have h4 : y % 10 < 10 := Nat.mod_lt _ (by norm_num)
  simp only [pad4, List.cons_append, List.nil_append, read4]
  rw [isDigitC_digChar _ h1, isDigitC_digChar _ h2, isDigitC_digChar _ h3,
    isDigitC_digChar _ h4]
  simp only [Bool.and_self, if_true]
  rw [digVal_digChar _ h1, digVal_digChar _ h2, digVal_digChar _ h3, digVal_digChar _ h4]
  have hv : 1000 * (y / 1000 % 10) + 100 * (y / 100 % 10) + 10 * (y / 10 % 10) + y % 10
      = y := by omega
  rw [hv]

theorem read2_pad2 (n : Nat) (h : n ≤ 99) (c : Char) (rest : List Char) :
    read2 (pad2 n ++ c :: rest) = some (n, c :: rest) := by
  have h1 : n / 10 % 10 < 10 := Nat.mod_lt _ (by norm_num)
  have h2 : n % 10 < 10 := Nat.mod_lt _ (by norm_num)
  simp only [pad2, List.cons_append, List.nil_append, read2]
  rw [isDigitC_digChar _ h1, isDigitC_digChar _ h2]
  simp only [if_true]
  rw [digVal_digChar _ h1, digVal_digChar _ h2]
  have hv : 10 * (n / 10 % 10) + n % 10 = n := by omega
  rw [hv]

theorem readSep_pad2 (sep : Char) (n : Nat) (h : n ≤ 99) (c : Char) (rest : List Char) :
    readSep sep (sep :: (pad2 n ++ c :: rest)) = some (n, c :: rest) := by
  unfold readSep
  rw [expectChar_cons, if_pos rfl]
  simp only [Option.bind_eq_bind, Option.some_bind]
  exact read2_pad2 n h c rest

theorem skipDigits_exact (ds : List Char) : ∀ (k : Nat) (c : Char) (l : List Char),
    ds.length ≤ k → (∀ x ∈ ds, isDigitC x = true) → isDigitC c = false →
    skipDigits k (ds ++ c :: l) = c :: l := by
  induction ds with
  | nil =>
    intro k c l _ _ hc
    cases k with
    | zero => rfl
    | succ k => simp [skipDigits, hc]
  | cons d rest ih =>
    intro k c l hlen hds hc
    cases k with
    | zero => simp at hlen
    | succ k =>
      simp only [List.cons_append, skipDigits]
      rw [hds d (List.mem_cons_self d rest)]
      simp only [if_true]
      exact ih k c l (by simpa using hlen) (fun x hx => hds x (List.mem_cons_of_mem _ hx)) hc

theorem parseFracZ_render (frac : List Nat) (h1 : 1 ≤ frac.length)
    (h6 : frac.length ≤ 6) (hd : ∀ x ∈ frac, x < 10) :
    parseFracZ ('.' :: (frac.map digChar ++ ['Z'])) = some () := by
  cases frac with
  | nil => simp at h1
  | cons f fs =>
    unfold parseFracZ
    rw [expectChar_cons, if_pos rfl]
    simp only [List.map_cons, List.cons_append]
    rw [isDigitC_digChar f (hd f (List.mem_cons_self f fs))]
    simp only [if_true]
    rw [skipDigits_exact (fs.map digChar) 5 'Z' []
      (by simp only [List.length_map]; simp at h6; omega)
      (fun x hx => by
        obtain ⟨a, ha, rfl⟩ := List.mem_map.mp hx
        exact isDigitC_digChar a (hd a (List.mem_cons_of_mem _ ha)))
      (by decide)]
    rw [expectChar_cons, if_pos rfl]

theorem parseYMD_render (y mo d : Nat) (hy : y ≤ 9999) (hmo : mo ≤ 99) (hd : d ≤ 99)
    (c : Char) (rest : List Char) :
    parseYMD (pad4 y ++ '-' :: (pad2 mo ++ '-' :: (pad2 d ++ c :: rest)))
      = some ((y, mo, d), c :: rest) := by
  unfold parseYMD
  rw [read4_pad4 y hy]
  simp only [Option.bind_eq_bind, Option.some_bind]
  rw [readSep_pad2 '-' mo hmo]
  simp only [Option.some_bind]
  rw [readSep_pad2 '-' d hd]
  rfl

theorem parseHMS_render (h mi s : Nat) (hh : h ≤ 99) (hmi : mi ≤ 99) (hs : s ≤ 99)
    (c : Char) (rest : List Char) :
    parseHMS ('T' :: (pad2 h ++ ':' :: (pad2 mi ++ ':' :: (pad2 s ++ c :: rest))))
      = some ((h, mi, s), c :: rest) := by
  unfold parseHMS
  rw [readSep_pad2 'T' h hh]
  simp only [Option.bind_eq_bind, Option.some_bind]
  rw [readSep_pad2 ':' mi hmi]
  simp only [Option.some_bind]
  rw [readSep_pad2 ':' s hs]
  rfl

theorem parseTs_render (t : Timestamp) (frac : List Nat) (hv : validTs t)
    (hy : t.year ≤ 9999) (h1 : 1 ≤ frac.length) (h6 : frac.length ≤ 6)
    (hd : ∀ x ∈ frac, x < 10) :
    parseTs (renderInput t frac) = some t := by
  obtain ⟨hvy, hvm1, hvm2, hvd1, hvd2, hvh, hvmi, hvs⟩ := hv
  have hdm := daysInMonth_le t.year t.month
  have hshape : renderInput t frac
      = pad4 t.year ++ '-' :: (pad2 t.month ++ '-' :: (pad2 t.day
          ++ 'T' :: (pad2 t.hour ++ ':' :: (pad2 t.minute ++ ':' :: (pad2 t.second
          ++ '.' :: (frac.map digChar ++ ['Z'])))))) := by
    unfold renderInput renderTs
    simp [List.append_assoc]
  rw [hshape]
  unfold parseTs
  rw [parseYMD_render t.year t.month t.day hy (by omega) (by omega)]
  simp only [Option.bind_eq_bind, Option.some_bind]
  rw [parseHMS_render t.hour t.minute t.second (by omega) (by omega) (by omega)]
  simp only [Option.some_bind]
  rw [parseFracZ_render frac h1 h6 hd]
  simp only [Option.some_bind]
  have ht : (⟨t.year, t.month, t.day, t.hour, t.minute, t.second⟩ : Timestamp) = t := rfl
  rw [ht, if_pos ⟨hvy, hvm1, hvm2, hvd1, hvd2, hvh, hvmi, hvs⟩]

theorem renderTs_length (t : Timestamp) : (renderTs t).length = 19 := by
  simp [renderTs, pad4, pad2]

/-- Claim C4: `convert_tz` maps every well-formed
`YYYY-MM-DDTHH:MM:SS.ffffffZ` input (within the era covered by the
modelled post-2007 US/Central DST rule) to the same instant expressed in
US Central civil time, formatted `YYYY-MM-DDTHH:MM:SS` with no offset
suffix and no fractional seconds — the rendered civil time plus the
correct Central offset recovers the input instant — and maps a null or
empty input to null without raising. -/
theorem C4_convert_tz_correct (t : Timestamp) (frac : List Nat)
    (hv : validTs t) (hy1 : 2007 ≤ t.year) (hy2 : t.year ≤ 2036)
    (hf1 : 1 ≤ frac.length) (hf6 : frac.length ≤ 6) (hfd : ∀ x ∈ frac, x < 10) :
    (∃ t' : Timestamp,
      convert_tz (.str (String.mk (renderInput t frac)))
          = some (.str (String.mk (renderTs t')))
        ∧ validTs t'
        ∧ t'.year ≤ 9999
        ∧ epochOf t' + centralOffset (epochOf t) = epochOf t
        ∧ (renderTs t').length = 19)
      ∧ convert_tz .null = some .null
      ∧ convert_tz (.str "") = some .null := by
  refine ⟨?_, rfl, rfl⟩
  obtain ⟨hvy, hvm1, hvm2, hvd1, hvd2, hvh, hvmi, hvs⟩ := hv
  have hdm := daysInMonth_le t.year t.month
  -- the instant is far above any Central offset
  have hlb := toDays_lb t.year t.month t.day hvm1
  have he1 : 731884 ≤ toDays t.year t.month t.day := by omega
  have hoff : centralOffset (epochOf t) ≤ 21600 := by
    unfold centralOffset
    split <;> omega
  have he2 : 731884 * 86400 ≤ epochOf t := by
    unfold epochOf
    omega
  have hel : ¬ epochOf t < centralOffset (epochOf t) := by omega
  set e := epochOf t with hee
  set off := centralOffset e with hoffe
  set ec := e - off with hec
  obtain ⟨hrt, hy1', hm1', hm2', hd1', hd2'⟩ := daysToCivil_toDays (ec / 86400)
  refine ⟨⟨(daysToCivil (ec / 86400)).1, (daysToCivil (ec / 86400)).2.1,
    (daysToCivil (ec / 86400)).2.2, ec % 86400 / 3600, ec % 86400 % 3600 / 60,
    ec % 86400 % 60⟩, ?_, ?_, ?_, ?_, ?_⟩
  · -- the computed output string
    show convert_tz (.str (String.mk (renderInput t frac))) = _
    simp only [convert_tz]
    rw [if_neg (show ¬ String.mk (renderInput t frac) = "" from by
      intro hemp
      have : renderInput t frac = "".data := congrArg String.data hemp
      rw [show ("" : String).data = [] from rfl] at this
      unfold renderInput renderTs at this
      simp [pad4] at this)]
    rw [parseTs_render t frac ⟨hvy, hvm1, hvm2, hvd1, hvd2, hvh, hvmi, hvs⟩
      (by omega) hf1 hf6 hfd]
    simp only
    rw [← hee, ← hoffe, if_neg hel]
    rfl
  · -- validity of the output civil time
    refine ⟨hy1', hm1', hm2', hd1', hd2', ?_, ?_, ?_⟩
    · show ec % 86400 / 3600 ≤ 23
      omega
    · show ec % 86400 % 3600 / 60 ≤ 59
      omega
    · show ec % 86400 % 60 ≤ 59
      omega
  · -- the output year is renderable in four digits
    show (daysToCivil (ec / 86400)).1 ≤ 9999
    have hub := toDays_ub t.year t.month t.day hvm2 (by omega)
    have heq : e / 86400 = toDays t.year t.month t.day := by
      rw [hee]
      unfold epochOf
      omega
    have hle : ec / 86400 ≤ e / 86400 := Nat.div_le_div_right (by omega)
    have hlb' := toDays_lb (daysToCivil (ec / 86400)).1 (daysToCivil (ec / 86400)).2.1
      (daysToCivil (ec / 86400)).2.2 hm1'
    omega
  · -- the output denotes the input instant shifted by the Central offset
    show toDays (daysToCivil (ec / 86400)).1 (daysToCivil (ec / 86400)).2.1
        (daysToCivil (ec / 86400)).2.2 * 86400 + ec % 86400 / 3600 * 3600
        + ec % 86400 % 3600 / 60 * 60 + ec % 86400 % 60 + off = e
    rw [hrt]
    omega
  · exact renderTs_length _

/-- Witness for C4: the design's §8 scenario, `"2023-03-12T07:00:00.000Z"`
one hour before the 2023 spring-forward instant, mapping to
`"2023-03-12T01:00:00"` Central standard time. -/
theorem C4_convert_tz_correct_witness :
    convert_tz (.str "2023-03-12T07:00:00.000Z") = some (.str "2023-03-12T01:00:00")
      ∧ validTs ⟨2023, 3, 12, 7, 0, 0⟩
      ∧ ((∃ t' : Timestamp,
          convert_tz (.str (String.mk (renderInput ⟨2023, 3, 12, 7, 0, 0⟩ [0, 0, 0])))
              = some (.str (String.mk (renderTs t')))
            ∧ validTs t'
            ∧ t'.year ≤ 9999
            ∧ epochOf t' + centralOffset (epochOf ⟨2023, 3, 12, 7, 0, 0⟩)
                = epochOf ⟨2023, 3, 12, 7, 0, 0⟩
            ∧ (renderTs t').length = 19)
          ∧ convert_tz .null = some .null
          ∧ convert_tz (.str "") = some .null) :=
  ⟨by decide, by decide,
    C4_convert_tz_correct ⟨2023, 3, 12, 7, 0, 0⟩ [0, 0, 0] (by decide) (by decide)
      (by decide) (by decide) (by decide) (by decide)⟩

/-! ## Lemmas about `transform_row` -/

theorem mem_dkeys_of_dlookup (d : Dict) (k : String) (v : Value)
    (h : dlookup d k = some v) : k ∈ dkeys d := by
  by_contra hk
  rw [dlookup_none_of_not_mem d k hk] at h
  cases h

theorem mem_dkeys_dinsert_iff (d : Dict) (k' : String) (v : Value) (k : String) :
    k ∈ dkeys (dinsert d k' v) ↔ k = k' ∨ k ∈ dkeys d := by
  by_cases hm : k' ∈ dkeys d
  · rw [dkeys_dinsert_mem d k' v hm]
    constructor
    · exact Or.inr
    · rintro (rfl | h)
      · exact hm
      · exact h
  · rw [dkeys_dinsert_new d k' v hm, List.mem_append, List.mem_singleton]
    tauto

theorem transform_row_inv (a a' : Asset) (rec : Dict)
    (h : transform_row a = some (a', rec)) :
    ∃ fields1 fd0 isPub fd1 fd6 dn fd9,
      pageViewsFields a = some fields1
        ∧ a' = { a with resource := { a.resource with fields := fields1 } }
        ∧ projectFields fields1 OUT_FIELDS = some fd0
        ∧ a.is_public = some isPub
        ∧ urlFields isPub fd0 = some fd1
        ∧ tzFields fd1 = some fd6
        ∧ a.owner.display_name = some dn
        ∧ metaFields a' (tagsField a' (dinsert fd6 "owner_display_name" dn)) = some fd9
        ∧ rec = fd9 := by
  unfold transform_row at h
  simp only [Option.bind_eq_bind, Option.bind_eq_some, Option.pure_def,
    Option.some.injEq, Prod.mk.injEq] at h
  obtain ⟨fields1, h1, fd0, h2, isPub, h3, fd1, h4, fd6, h5, dn, h6, fd9, h7, h8, h9⟩ := h
  exact ⟨fields1, fd0, isPub, fd1, fd6, dn, fd9, h1, h8.symm, h2, h3, h4, h5, h6,
    h8 ▸ h7, h9.symm⟩

theorem projectFields_keys : ∀ (ks : List String) (d fd : Dict),
    projectFields d ks = some fd → dkeys fd = ks := by
  intro ks
  induction ks with
  | nil =>
    intro d fd h
    simp only [projectFields, Option.some.injEq] at h
    rw [← h]
    rfl
  | cons k rest ih =>
    intro d fd h
    simp only [projectFields, Option.bind_eq_bind, Option.bind_eq_some, Option.pure_def,
      Option.some.injEq] at h
    obtain ⟨v, hv, tail, htail, rfl⟩ := h
    rw [dkeys_cons, ih d tail htail]

theorem projectFields_lookup : ∀ (ks : List String) (d fd : Dict),
    projectFields d ks = some fd → ∀ k ∈ ks, dlookup fd k = dlookup d k := by
  intro ks
  induction ks with
  | nil => intro d fd _ k hk; cases hk
  | cons k0 rest ih =>
    intro d fd h k hk
    simp only [projectFields, Option.bind_eq_bind, Option.bind_eq_some, Option.pure_def,
      Option.some.injEq] at h
    obtain ⟨v, hv, tail, htail, rfl⟩ := h
    simp only [dlookup]
    by_cases hek : k0 = k
    · rw [if_pos hek, ← hek, hv]
    · rw [if_neg hek]
      rcases List.mem_cons.mp hk with h' | h'
      · exact absurd h'.symm hek
      · exact ih d tail htail k h'

theorem projectFields_isSome : ∀ (ks : List String) (d : Dict),
    (∀ k ∈ ks, k ∈ dkeys d) → ∃ fd, projectFields d ks = some fd := by
  intro ks
  induction ks with
  | nil => intro d _; exact ⟨[], rfl⟩
  | cons k rest ih =>
    intro d h
    obtain ⟨v, hv⟩ := Option.isSome_iff_exists.mp
      (dlookup_isSome_of_mem d k (h k (List.mem_cons_self k rest)))
    obtain ⟨tail, htail⟩ := ih d (fun x hx => h x (List.mem_cons_of_mem _ hx))
    exact ⟨(k, v) :: tail, by simp [projectFields, hv, htail]⟩

theorem urlFields_inv (isPub : Bool) (fd0 fd1 : Dict)
    (h : urlFields isPub fd0 = some fd1) :
    ∃ s, dlookup fd0 "id" = some (.str s)
      ∧ fd1 = (if isPub then
          dinsert (dinsert fd0 "dataset_url" (.str (BASE_URL ++ s))) "is_public" (.bool true)
        else
          dinsert (dinsert fd0 "dataset_url" (.str (EDP_URL ++ s))) "is_public" (.bool false)) := by
  unfold urlFields at h
  simp only [Option.bind_eq_bind, Option.bind_eq_some, Option.pure_def,
    Option.some.injEq] at h
  obtain ⟨idv, hid, s, hs, rfl⟩ := h
  cases idv with
  | str s0 =>
    simp only [Option.some.injEq] at hs
    subst hs
    exact ⟨s0, hid, rfl⟩
  | num n => cases hs
  | bool b => cases hs
  | null => cases hs

theorem urlFields_keys (isPub : Bool) (fd0 fd1 : Dict) (h : urlFields isPub fd0 = some fd1)
    (h1 : ¬ "dataset_url" ∈ dkeys fd0) (h2 : ¬ "is_public" ∈ dkeys fd0)
    (h3 : ("dataset_url" : String) ≠ "is_public") :
    dkeys fd1 = dkeys fd0 ++ ["dataset_url", "is_public"] := by
  obtain ⟨s, hid, rfl⟩ := urlFields_inv isPub fd0 fd1 h
  have hfresh : ¬ "is_public" ∈ dkeys (dinsert fd0 "dataset_url" (.str (BASE_URL ++ s))) := by
    rw [mem_dkeys_dinsert_iff]
    rintro (hh | hh)
    · exact h3 hh.symm
    · exact h2 hh
  have hfresh' : ¬ "is_public" ∈ dkeys (dinsert fd0 "dataset_url" (.str (EDP_URL ++ s))) := by
    rw [mem_dkeys_dinsert_iff]
    rintro (hh | hh)
    · exact h3 hh.symm
    · exact h2 hh
  cases isPub with
  | true =>
    rw [if_pos rfl, dkeys_dinsert_new _ _ _ hfresh, dkeys_dinsert_new _ _ _ h1,
      List.append_assoc]
    rfl
  | false =>
    rw [if_neg (by simp), dkeys_dinsert_new _ _ _ hfresh', dkeys_dinsert_new _ _ _ h1,
      List.append_assoc]
    rfl

theorem urlFields_lookup (isPub : Bool) (fd0 fd1 : Dict) (h : urlFields isPub fd0 = some fd1)
    (k : String) (h1 : k ≠ "dataset_url") (h2 : k ≠ "is_public") :
    dlookup fd1 k = dlookup fd0 k := by
  obtain ⟨s, hid, rfl⟩ := urlFields_inv isPub fd0 fd1 h
  cases isPub with
  | true => rw [if_pos rfl, dlookup_dinsert_ne _ _ _ _ h2, dlookup_dinsert_ne _ _ _ _ h1]
  | false => rw [if_neg (by simp), dlookup_dinsert_ne _ _ _ _ h2, dlookup_dinsert_ne _ _ _ _ h1]

theorem convField_inv (rec : Dict) (k : String) (rec' : Dict)
    (h : convField rec k = some rec') :
    ∃ v v', dlookup rec k = some v ∧ convert_tz v = some v' ∧ rec' = dinsert rec k v' := by
  unfold convField at h
  simp only [Option.bind_eq_bind, Option.bind_eq_some, Option.pure_def,
    Option.some.injEq] at h
  obtain ⟨v, hv, v', hv', rfl⟩ := h
  exact ⟨v, v', hv, hv', rfl⟩

theorem convField_keys (rec : Dict) (k : String) (rec' : Dict)
    (h : convField rec k = some rec') : dkeys rec' = dkeys rec := by
  obtain ⟨v, v', hv, _, rfl⟩ := convField_inv rec k rec' h
  exact dkeys_dinsert_mem _ _ _ (mem_dkeys_of_dlookup _ _ _ hv)

theorem convField_lookup_ne (rec : Dict) (k : String) (rec' : Dict)
    (h : convField rec k = some rec') (k' : String) (hk : k' ≠ k) :
    dlookup rec' k' = dlookup rec k' := by
  obtain ⟨v, v', _, _, rfl⟩ := convField_inv rec k rec' h
  exact dlookup_dinsert_ne _ _ _ _ hk

theorem convField_isSome (rec : Dict) (k : String) (v : Value)
    (hv : dlookup rec k = some v) (hc : (convert_tz v).isSome = true) :
    ∃ rec', convField rec k = some rec' := by
  obtain ⟨v', hv'⟩ := Option.isSome_iff_exists.mp hc
  exact ⟨dinsert rec k v', by simp [convField, hv, hv']⟩

theorem tzFields_inv (fd1 fd6 : Dict) (h : tzFields fd1 = some fd6) :
    ∃ fd2 fd3 fd4 fd5,
      convField fd1 "updatedAt" = some fd2 ∧ convField fd2 "createdAt" = some fd3
        ∧ convField fd3 "metadata_updated_at" = some fd4
        ∧ convField fd4 "data_updated_at" = some fd5
        ∧ convField fd5 "publication_date" = some fd6 := by
  unfold tzFields at h
  simp only [Option.bind_eq_bind, Option.bind_eq_some] at h
  obtain ⟨fd2, h2, fd3, h3, fd4, h4, fd5, h5, h6⟩ := h
  exact ⟨fd2, fd3, fd4, fd5, h2, h3, h4, h5, h6⟩

theorem tzFields_keys (fd1 fd6 : Dict) (h : tzFields fd1 = some fd6) :
    dkeys fd6 = dkeys fd1 := by
  obtain ⟨fd2, fd3, fd4, fd5, h2, h3, h4, h5, h6⟩ := tzFields_inv fd1 fd6 h
  rw [convField_keys _ _ _ h6, convField_keys _ _ _ h5, convField_keys _ _ _ h4,
    convField_keys _ _ _ h3, convField_keys _ _ _ h2]

theorem tzFields_lookup (fd1 fd6 : Dict) (h : tzFields fd1 = some fd6) (k : String)
    (h1 : k ≠ "updatedAt") (h2 : k ≠ "createdAt") (h3 : k ≠ "metadata_updated_at")
    (h4 : k ≠ "data_updated_at") (h5 : k ≠ "publication_date") :
    dlookup fd6 k = dlookup fd1 k := by
  obtain ⟨fd2, fd3, fd4, fd5, g2, g3, g4, g5, g6⟩ := tzFields_inv fd1 fd6 h
  rw [convField_lookup_ne _ _ _ g6 k h5, convField_lookup_ne _ _ _ g5 k h4,
    convField_lookup_ne _ _ _ g4 k h3, convField_lookup_ne _ _ _ g3 k h2,
    convField_lookup_ne _ _ _ g2 k h1]

theorem tagsField_keys (a : Asset) (fd : Dict) (h : ¬ "tags" ∈ dkeys fd) :
    dkeys (tagsField a fd) = dkeys fd ++ ["tags"] := by
  unfold tagsField
  cases a.classification.domain_tags with
  | none => exact dkeys_dinsert_new _ _ _ h
  | some tags => exact dkeys_dinsert_new _ _ _ h

theorem tagsField_lookup_self (a : Asset) (fd : Dict) :
    dlookup (tagsField a fd) "tags"
      = some (.str (match a.classification.domain_tags with
          | some tags => String.intercalate ", " (tags.map pyStr)
          | none => "")) := by
  unfold tagsField
  cases a.classification.domain_tags with
  | none => exact dlookup_dinsert_self _ _ _
  | some tags => exact dlookup_dinsert_self _ _ _

theorem tagsField_lookup_ne (a : Asset) (fd : Dict) (k : String) (hk : k ≠ "tags") :
    dlookup (tagsField a fd) k = dlookup fd k := by
  unfold tagsField
  cases a.classification.domain_tags with
  | none => exact dlookup_dinsert_ne _ _ _ _ hk
  | some tags => exact dlookup_dinsert_ne _ _ _ _ hk

theorem metaFields_inv (a : Asset) (fd fd9 : Dict) (h : metaFields a fd = some fd9) :
    ∃ md, a.classification.domain_metadata = some md
      ∧ fd9 = FIELDS.foldl
          (fieldStep (mergeMeta (a.classification.domain_private_metadata.getD []) md)) fd := by
  unfold metaFields at h
  simp only [Option.bind_eq_bind, Option.bind_eq_some, Option.pure_def,
    Option.some.injEq] at h
  obtain ⟨md, hmd, rfl⟩ := h
  exact ⟨md, hmd, rfl⟩

theorem fieldStep_keys (m acc : Dict) (p : String × String) (h : ¬ p.2 ∈ dkeys acc) :
    dkeys (fieldStep m acc p) = dkeys acc ++ [p.2] := by
  unfold fieldStep
  cases dlookup m p.1 with
  | none => exact dkeys_dinsert_new _ _ _ h
  | some v => exact dkeys_dinsert_new _ _ _ h

theorem fieldStep_lookup_ne (m acc : Dict) (p : String × String) (k : String)
    (hk : k ≠ p.2) : dlookup (fieldStep m acc p) k = dlookup acc k := by
  unfold fieldStep
  cases dlookup m p.1 with
  | none => exact dlookup_dinsert_ne _ _ _ _ hk
  | some v => exact dlookup_dinsert_ne _ _ _ _ hk

theorem fieldStep_lookup_self (m acc : Dict) (p : String × String) :
    dlookup (fieldStep m acc p) p.2 = some ((dlookup m p.1).getD (.str "")) := by
  unfold fieldStep
  cases dlookup m p.1 with
  | none => exact dlookup_dinsert_self _ _ _
  | some v => exact dlookup_dinsert_self _ _ _

theorem foldl_fieldStep_keys (m : Dict) : ∀ (fs : List (String × String)) (acc : Dict),
    (∀ q ∈ fs, ¬ q.2 ∈ dkeys acc) → (fs.map Prod.snd).Nodup →
    dkeys (fs.foldl (fieldStep m) acc) = dkeys acc ++ fs.map Prod.snd := by
  intro fs
  induction fs with
  | nil => intro acc _ _; simp
  | cons q rest ih =>
    intro acc hfresh hnd
    simp only [List.foldl_cons, List.map_cons]
    have hq : ¬ q.2 ∈ dkeys acc := hfresh q (List.mem_cons_self q rest)
    have hstep := fieldStep_keys m acc q hq
    rw [ih (fieldStep m acc q) ?_ ?_, hstep]
    · simp
    · intro q' hq'
      rw [hstep, List.mem_append, List.mem_singleton]
      rintro (hh | hh)
      · exact hfresh q' (List.mem_cons_of_mem _ hq') hh
      · rw [List.map_cons] at hnd
        exact (List.nodup_cons.mp hnd).1 (hh ▸ List.mem_map_of_mem Prod.snd hq')
    · rw [List.map_cons] at hnd
      exact (List.nodup_cons.mp hnd).2

theorem foldl_fieldStep_lookup_not_mem (m : Dict) :
    ∀ (fs : List (String × String)) (acc : Dict) (k : String),
    ¬ k ∈ fs.map Prod.snd →
    dlookup (fs.foldl (fieldStep m) acc) k = dlookup acc k := by
  intro fs
  induction fs with
  | nil => intro acc k _; rfl
  | cons q rest ih =>
    intro acc k hk
    rw [List.map_cons, List.mem_cons, not_or] at hk
    simp only [List.foldl_cons]
    rw [ih _ k hk.2, fieldStep_lookup_ne m acc q k hk.1]

theorem foldl_fieldStep_lookup_mem (m : Dict) :
    ∀ (fs : List (String × String)) (acc : Dict) (q : String × String),
    (fs.map Prod.snd).Nodup → q ∈ fs →
    dlookup (fs.foldl (fieldStep m) acc) q.2 = some ((dlookup m q.1).getD (.str "")) := by
  intro fs
  induction fs with
  | nil => intro acc q _ hq; cases hq
  | cons q0 rest ih =>
    intro acc q hnd hq
    rw [List.map_cons, List.nodup_cons] at hnd
    simp only [List.foldl_cons]
    rcases List.mem_cons.mp hq with rfl | hq'
    · rw [foldl_fieldStep_lookup_not_mem m rest _ q.2 hnd.1, fieldStep_lookup_self]
    · exact ih _ q hnd.2 hq'

theorem dlookup_foldl_dinsert : ∀ (l : List (String × Value)) (init : Dict) (k : String),
    dlookup (l.foldl (fun acc kv => dinsert acc kv.1 kv.2) init) k
      = match lastVal l k with
        | some v => some v
        | none => dlookup init k := by
  intro l
  induction l with
  | nil => intro init k; rfl
  | cons kv l ih =>
    intro init k
    simp only [List.foldl_cons, lastVal]
    rw [ih]
    cases lastVal l k with
    | some v => rfl
    | none =>
      simp only
      by_cases hk : kv.1 = k
      · rw [if_pos hk, ← hk, dlookup_dinsert_self]
      · rw [if_neg hk, dlookup_dinsert_ne _ _ _ _ (fun hh => hk hh.symm)]

theorem dlookup_mergeMeta (priv md : List (String × Value)) (k : String) :
    dlookup (mergeMeta priv md) k
      = match lastVal md k with
        | some v => some v
        | none => lastVal priv k := by
  unfold mergeMeta
  rw [List.foldl_append, dlookup_foldl_dinsert]
  cases lastVal md k with
  | some v => rfl
  | none =>
    simp only
    rw [dlookup_foldl_dinsert]
    cases lastVal priv k with
    | some v => rfl
    | none => rfl

/-! ## The flattened record: schema, tags and metadata fields -/

theorem pageViewsFields_inv (a : Asset) (fields1 : Dict)
    (h : pageViewsFields a = some fields1) :
    ∃ pv w m t, a.resource.page_views = some pv
      ∧ dlookup pv "page_views_last_week" = some w
      ∧ dlookup pv "page_views_last_month" = some m
      ∧ dlookup pv "page_views_total" = some t
      ∧ fields1 = dinsert (dinsert (dinsert a.resource.fields
          "page_views_last_week" w) "page_views_last_month" m) "page_views_total" t := by
  unfold pageViewsFields at h
  simp only [Option.bind_eq_bind, Option.bind_eq_some, Option.pure_def,
    Option.some.injEq] at h
  obtain ⟨pv, hpv, w, hw, m, hm, t, ht, rfl⟩ := h
  exact ⟨pv, w, m, t, hpv, hw, hm, ht, rfl⟩

theorem pageViewsFields_isSome (a : Asset) (pv : Dict)
    (hpv : a.resource.page_views = some pv)
    (hw : (dlookup pv "page_views_last_week").isSome = true)
    (hm : (dlookup pv "page_views_last_month").isSome = true)
    (ht : (dlookup pv "page_views_total").isSome = true) :
    ∃ fields1, pageViewsFields a = some fields1 := by
  obtain ⟨w, hw'⟩ := Option.isSome_iff_exists.mp hw
  obtain ⟨m, hm'⟩ := Option.isSome_iff_exists.mp hm
  obtain ⟨t, ht'⟩ := Option.isSome_iff_exists.mp ht
  exact ⟨dinsert (dinsert (dinsert a.resource.fields "page_views_last_week" w)
      "page_views_last_month" m) "page_views_total" t,
    by simp [pageViewsFields, hpv, hw', hm', ht']⟩

/-- Everything a successful `transform_row` guarantees about the output
record: the classification is untouched, the keys are exactly the fixed
schema, `tags` holds the joined (or defaulted) tag string, and each of the
seven publishing-metadata fields holds the merged-metadata value with the
empty string as default. -/
theorem transform_row_fields (a a' : Asset) (rec : Dict)
    (h : transform_row a = some (a', rec)) :
    a'.classification = a.classification
      ∧ dkeys rec = SCHEMA
      ∧ dlookup rec "tags"
          = some (.str (match a.classification.domain_tags with
              | some tags => String.intercalate ", " (tags.map pyStr)
              | none => ""))
      ∧ ∃ md, a.classification.domain_metadata = some md
          ∧ ∀ q ∈ FIELDS, dlookup rec q.2
              = some ((dlookup (mergeMeta
                  (a.classification.domain_private_metadata.getD []) md) q.1).getD
                    (.str "")) := by
  obtain ⟨fields1, fd0, isPub, fd1, fd6, dn, fd9, hpf, ha', hproj, hisPub, hurl, htz,
    hdn, hmeta, hrec⟩ := transform_row_inv a a' rec h
  have hac : a'.classification = a.classification := by rw [ha']
  obtain ⟨md, hmd, hfd9⟩ := metaFields_inv a' _ fd9 hmeta
  have hk0 : dkeys fd0 = OUT_FIELDS := projectFields_keys OUT_FIELDS fields1 fd0 hproj
  have hk1 : dkeys fd1 = OUT_FIELDS ++ ["dataset_url", "is_public"] := by
    rw [urlFields_keys isPub fd0 fd1 hurl (by rw [hk0]; decide) (by rw [hk0]; decide)
      (by decide), hk0]
  have hk6 : dkeys fd6 = OUT_FIELDS ++ ["dataset_url", "is_public"] := by
    rw [tzFields_keys fd1 fd6 htz, hk1]
  have hk7 : dkeys (dinsert fd6 "owner_display_name" dn)
      = OUT_FIELDS ++ ["dataset_url", "is_public"] ++ ["owner_display_name"] := by
    rw [dkeys_dinsert_new fd6 _ dn (by rw [hk6]; decide), hk6]
  have hk8 : dkeys (tagsField a' (dinsert fd6 "owner_display_name" dn))
      = OUT_FIELDS ++ ["dataset_url", "is_public"] ++ ["owner_display_name"]
          ++ ["tags"] := by
    rw [tagsField_keys a' _ (by rw [hk7]; decide), hk7]
  have hnd : (FIELDS.map Prod.snd).Nodup := by decide
  have hfresh8 : ∀ q ∈ FIELDS,
      ¬ q.2 ∈ dkeys (tagsField a' (dinsert fd6 "owner_display_name" dn)) := by
    intro q hq
    rw [hk8]
    fin_cases hq <;> decide
  have hkeys : dkeys fd9 = SCHEMA := by
    rw [hfd9, foldl_fieldStep_keys _ FIELDS _ hfresh8 hnd, hk8]
    decide
  have htags : dlookup fd9 "tags"
      = some (.str (match a.classification.domain_tags with
          | some tags => String.intercalate ", " (tags.map pyStr)
          | none => "")) := by
    rw [hfd9, foldl_fieldStep_lookup_not_mem _ FIELDS _ "tags" (by decide),
      tagsField_lookup_self, hac]
  refine ⟨hac, by rw [hrec]; exact hkeys, by rw [hrec]; exact htags, md,
    by rw [← hac]; exact hmd, ?_⟩
  intro q hq
  rw [hrec, hfd9, foldl_fieldStep_lookup_mem _ FIELDS _ q hnd hq, hac]

/-- Claim C5: every flattened record carries exactly the keys of the fixed
output schema — the `OUT_FIELDS` projection followed by `dataset_url`,
`is_public`, `owner_display_name`, `tags` and the seven publishing-metadata
fields — every schema key is present, and a key whose source value is
absent (`domain_tags` missing, or a metadata key absent from the merged
metadata) holds the empty string rather than being omitted. -/
theorem C5_uniform_schema (a a' : Asset) (rec : Dict)
    (h : transform_row a = some (a', rec)) :
    dkeys rec = SCHEMA
      ∧ (∀ k ∈ SCHEMA, (dlookup rec k).isSome = true)
      ∧ (a.classification.domain_tags = none → dlookup rec "tags" = some (.str ""))
      ∧ (∀ q ∈ FIELDS, ∀ md, a.classification.domain_metadata = some md →
          dlookup (mergeMeta (a.classification.domain_private_metadata.getD []) md) q.1
            = none →
          dlookup rec q.2 = some (.str "")) := by
  obtain ⟨hac, hkeys, htags, md, hmd, hflds⟩ := transform_row_fields a a' rec h
  refine ⟨hkeys, ?_, ?_, ?_⟩
  · intro k hk
    exact dlookup_isSome_of_mem rec k (by rw [hkeys]; exact hk)
  · intro hnone
    rw [htags, hnone]
  · intro q hq md' hmd' hnone
    rw [hmd] at hmd'
    injection hmd' with he
    subst he
    rw [hflds q hq, hnone]
    rfl

theorem C5_uniform_schema_witness :
    transform_row sampleClassified = some (sampleFlattened.1, sampleFlattened.2)
      ∧ (dkeys sampleFlattened.2 = SCHEMA
        ∧ (∀ k ∈ SCHEMA, (dlookup sampleFlattened.2 k).isSome = true)
        ∧ (sampleClassified.classification.domain_tags = none →
            dlookup sampleFlattened.2 "tags" = some (.str ""))
        ∧ (∀ q ∈ FIELDS, ∀ md,
            sampleClassified.classification.domain_metadata = some md →
            dlookup (mergeMeta
              (sampleClassified.classification.domain_private_metadata.getD []) md) q.1
              = none →
            dlookup sampleFlattened.2 q.2 = some (.str ""))) :=
  ⟨by decide,
    C5_uniform_schema sampleClassified sampleFlattened.1 sampleFlattened.2 (by decide)⟩

/-- Claim C3: when a key of the seven-field pull table occurs in both
`domain_private_metadata` and `domain_metadata` with different values, the
flattened record's field holds the `domain_metadata` (non-private) value:
private metadata is merged first and overwritten on collision. -/
theorem C3_metadata_precedence (a a' : Asset) (rec : Dict) (q : String × String)
    (md priv : List (String × Value)) (v w : Value)
    (h : transform_row a = some (a', rec))
    (hq : q ∈ FIELDS)
    (hmd : a.classification.domain_metadata = some md)
    (hpriv : a.classification.domain_private_metadata = some priv)
    (hv : lastVal md q.1 = some v)
    (hw : lastVal priv q.1 = some w)
    (hne : w ≠ v) :
    dlookup rec q.2 = some v := by
  obtain ⟨hac, hkeys, htags, md0, hmd0, hflds⟩ := transform_row_fields a a' rec h
  rw [hmd0] at hmd
  injection hmd with he
  subst he
  rw [hflds q hq, hpriv, dlookup_mergeMeta, hv]
  rfl

theorem C3_metadata_precedence_witness :
    transform_row sampleClassified = some (sampleFlattened.1, sampleFlattened.2)
      ∧ ("Ownership_Department-name", "department_name") ∈ FIELDS
      ∧ sampleClassified.classification.domain_metadata
          = some [("Ownership_Department-name", Value.str "DTS")]
      ∧ sampleClassified.classification.domain_private_metadata
          = some [("Ownership_Department-name", Value.str "SECRET"), ("P", Value.str "q")]
      ∧ lastVal [("Ownership_Department-name", Value.str "DTS")]
          "Ownership_Department-name" = some (Value.str "DTS")
      ∧ lastVal [("Ownership_Department-name", Value.str "SECRET"), ("P", Value.str "q")]
          "Ownership_Department-name" = some (Value.str "SECRET")
      ∧ Value.str "SECRET" ≠ Value.str "DTS"
      ∧ dlookup sampleFlattened.2 "department_name" = some (Value.str "DTS") :=
  ⟨by decide, by decide, by decide, by decide, by decide, by decide, by decide,
    C3_metadata_precedence sampleClassified sampleFlattened.1 sampleFlattened.2
      ("Ownership_Department-name", "department_name")
      [("Ownership_Department-name", Value.str "DTS")]
      [("Ownership_Department-name", Value.str "SECRET"), ("P", Value.str "q")]
      (Value.str "DTS") (Value.str "SECRET")
      (by decide) (by decide) (by decide) (by decide) (by decide) (by decide)
      (by decide)⟩

/-- Claim C10: the flattened `tags` field is always a string — each tag is
coerced through `str()` (`pyStr`) before the `", "`-join, so a non-string
tag never raises and appears in its string form, and an absent
`domain_tags` key yields the empty string. -/
theorem C10_tags_string (a a' : Asset) (rec : Dict)
    (h : transform_row a = some (a', rec)) :
    ∃ s, dlookup rec "tags" = some (.str s)
      ∧ (∀ tags, a.classification.domain_tags = some tags →
          s = String.intercalate ", " (tags.map pyStr))
      ∧ (a.classification.domain_tags = none → s = "") := by
  obtain ⟨hac, hkeys, htags, md, hmd, hflds⟩ := transform_row_fields a a' rec h
  refine ⟨_, htags, ?_, ?_⟩
  · intro tags htg
    rw [htg]
  · intro htg
    rw [htg]

theorem C10_tags_string_witness :
    transform_row sampleClassified = some (sampleFlattened.1, sampleFlattened.2)
      ∧ ∃ s, dlookup sampleFlattened.2 "tags" = some (Value.str s)
        ∧ (∀ tags, sampleClassified.classification.domain_tags = some tags →
            s = String.intercalate ", " (tags.map pyStr))
        ∧ (sampleClassified.classification.domain_tags = none → s = "") :=
  ⟨by decide,
    C10_tags_string sampleClassified sampleFlattened.1 sampleFlattened.2 (by decide)⟩

/-! ## Flatten totality and the in-place page-views mutation (C8) -/

/-- The flattening loop mutates its input: the three `page_views` members
are written into `row["resource"]` in place (lines 127-135), so the asset
after the loop differs from the asset before it — here on a well-formed
sample whose `resource` lacks the `page_views_total` key before flattening
and has it afterwards. -/
theorem C8_flatten_mutates_input_counterexample :
    (transform_row sampleClassified).isSome = true
      ∧ (transform_row sampleClassified).map Prod.fst ≠ some sampleClassified
      ∧ dmem sampleClassified.resource.fields "page_views_total" = false
      ∧ dmem sampleFlattened.1.resource.fields "page_views_total" = true := by
  decide

/-- Claim C8 (amended): on every well-formed classified asset, flattening
is total and deterministic — it cannot fail, and identical input yields the
identical output record — but it is not input-preserving: the asset is
left with the three `page_views` members written into its `resource`
fields. -/
theorem C8_flatten_total_deterministic (a : Asset)
    (h : wellFormedAsset a = true) :
    ∃ fields1 rec,
      pageViewsFields a = some fields1
        ∧ transform_row a
            = some ({ a with resource := { a.resource with fields := fields1 } }, rec)
        ∧ (∀ b : Asset, b = a → transform_row b = transform_row a) := by
  unfold wellFormedAsset at h
  cases hpv : a.resource.page_views with
  | none =>
    rw [hpv] at h
    simp at h
  | some pv =>
    rw [hpv] at h
    simp only [Bool.and_eq_true, List.all_eq_true] at h
    obtain ⟨⟨⟨⟨⟨⟨⟨⟨hw, hm⟩, ht⟩, hsid⟩, hout⟩, hpub⟩, hdn⟩, hmd⟩, hts⟩ := h
    obtain ⟨fields1, hpf⟩ := pageViewsFields_isSome a pv hpv hw hm ht
    obtain ⟨pv', w, m, t, hpv', hw', hm', ht', hf1⟩ := pageViewsFields_inv a fields1 hpf
    rw [hpv] at hpv'
    injection hpv' with hpv''
    subst hpv''
    have hf1look : ∀ k : String, k ≠ "page_views_last_week" →
        k ≠ "page_views_last_month" → k ≠ "page_views_total" →
        dlookup fields1 k = dlookup a.resource.fields k := by
      intro k h1 h2 h3
      rw [hf1, dlookup_dinsert_ne _ _ _ _ h3, dlookup_dinsert_ne _ _ _ _ h2,
        dlookup_dinsert_ne _ _ _ _ h1]
    have hf1mem : ∀ k ∈ OUT_FIELDS, k ∈ dkeys fields1 := by
      intro k hk
      have hko := hout k hk
      rw [hf1, mem_dkeys_dinsert_iff, mem_dkeys_dinsert_iff, mem_dkeys_dinsert_iff]
      simp only [Bool.or_eq_true, decide_eq_true_eq] at hko
      rcases hko with ((h1 | h2) | h3) | h4
      · exact Or.inr (Or.inr (Or.inl h1))
      · exact Or.inr (Or.inl h2)
      · exact Or.inl h3
      · exact Or.inr (Or.inr (Or.inr ((dmem_eq_true_iff _ _).mp h4)))
    obtain ⟨fd0, hproj⟩ := projectFields_isSome OUT_FIELDS fields1 hf1mem
    obtain ⟨s, hids⟩ := hasStrId_inv a hsid
    have hid0 : dlookup fd0 "id" = some (.str s) := by
      rw [projectFields_lookup OUT_FIELDS fields1 fd0 hproj "id" (by decide),
        hf1look "id" (by decide) (by decide) (by decide), hids]
    obtain ⟨isPub, hisPub⟩ := Option.isSome_iff_exists.mp hpub
    have hurl0 : ∃ fd1, urlFields isPub fd0 = some fd1 :=
      ⟨if isPub then
          dinsert (dinsert fd0 "dataset_url" (.str (BASE_URL ++ s))) "is_public"
            (.bool true)
        else
          dinsert (dinsert fd0 "dataset_url" (.str (EDP_URL ++ s))) "is_public"
            (.bool false),
        by simp [urlFields, hid0]⟩
    obtain ⟨fd1, hurl⟩ := hurl0
    have hfd1look : ∀ k : String, k ∈ OUT_FIELDS →
        k ≠ "page_views_last_week" → k ≠ "page_views_last_month" →
        k ≠ "page_views_total" → k ≠ "dataset_url" → k ≠ "is_public" →
        dlookup fd1 k = dlookup a.resource.fields k := by
      intro k hk h1 h2 h3 h4 h5
      rw [urlFields_lookup isPub fd0 fd1 hurl k h4 h5,
        projectFields_lookup OUT_FIELDS fields1 fd0 hproj k hk, hf1look k h1 h2 h3]
    have hconv : ∀ k : String,
        k ∈ (["updatedAt", "createdAt", "metadata_updated_at", "data_updated_at",
          "publication_date"] : List String) →
        ∃ v, dlookup a.resource.fields k = some v ∧ (convert_tz v).isSome = true := by
      intro k hk
      have h1 := hts k hk
      cases hv : dlookup a.resource.fields k with
      | none => rw [hv] at h1; cases h1
      | some v => rw [hv] at h1; exact ⟨v, rfl, h1⟩
    obtain ⟨v1, hv1, hc1⟩ := hconv "updatedAt" (by decide)
    obtain ⟨v2, hv2, hc2⟩ := hconv "createdAt" (by decide)
    obtain ⟨v3, hv3, hc3⟩ := hconv "metadata_updated_at" (by decide)
    obtain ⟨v4, hv4, hc4⟩ := hconv "data_updated_at" (by decide)
    obtain ⟨v5, hv5, hc5⟩ := hconv "publication_date" (by decide)
    obtain ⟨fd2, hcf1⟩ := convField_isSome fd1 "updatedAt" v1
      (by rw [hfd1look "updatedAt" (by decide) (by decide) (by decide) (by decide)
        (by decide) (by decide)]; exact hv1) hc1
    obtain ⟨fd3, hcf2⟩ := convField_isSome fd2 "createdAt" v2
      (by rw [convField_lookup_ne _ _ _ hcf1 _ (by decide),
        hfd1look "createdAt" (by decide) (by decide) (by decide) (by decide)
          (by decide) (by decide)]; exact hv2) hc2
    obtain ⟨fd4, hcf3⟩ := convField_isSome fd3 "metadata_updated_at" v3
      (by rw [convField_lookup_ne _ _ _ hcf2 _ (by decide),
        convField_lookup_ne _ _ _ hcf1 _ (by decide),
        hfd1look "metadata_updated_at" (by decide) (by decide) (by decide) (by decide)
          (by decide) (by decide)]; exact hv3) hc3
    obtain ⟨fd5, hcf4⟩ := convField_isSome fd4 "data_updated_at" v4
      (by rw [convField_lookup_ne _ _ _ hcf3 _ (by decide),
        convField_lookup_ne _ _ _ hcf2 _ (by decide),
        convField_lookup_ne _ _ _ hcf1 _ (by decide),
        hfd1look "data_updated_at" (by decide) (by decide) (by decide) (by decide)
          (by decide) (by decide)]; exact hv4) hc4
    obtain ⟨fd6, hcf5⟩ := convField_isSome fd5 "publication_date" v5
      (by rw [convField_lookup_ne _ _ _ hcf4 _ (by decide),
        convField_lookup_ne _ _ _ hcf3 _ (by decide),
        convField_lookup_ne _ _ _ hcf2 _ (by decide),
        convField_lookup_ne _ _ _ hcf1 _ (by decide),
        hfd1look "publication_date" (by decide) (by decide) (by decide) (by decide)
          (by decide) (by decide)]; exact hv5) hc5
    have htz : tzFields fd1 = some fd6 := by
      simp [tzFields, hcf1, hcf2, hcf3, hcf4, hcf5]
    obtain ⟨dn, hdn'⟩ := Option.isSome_iff_exists.mp hdn
    obtain ⟨md, hmd'⟩ := Option.isSome_iff_exists.mp hmd
    have hmeta0 : ∃ fd9,
        metaFields
          { resource := { fields := fields1, page_views := a.resource.page_views },
            classification := a.classification, owner := a.owner,
            is_public := some isPub }
          (tagsField
            { resource := { fields := fields1, page_views := a.resource.page_views },
              classification := a.classification, owner := a.owner,
              is_public := some isPub }
            (dinsert fd6 "owner_display_name" dn)) = some fd9 :=
      ⟨FIELDS.foldl
          (fieldStep (mergeMeta (a.classification.domain_private_metadata.getD []) md))
          (tagsField
            { resource := { fields := fields1, page_views := a.resource.page_views },
              classification := a.classification, owner := a.owner,
              is_public := some isPub }
            (dinsert fd6 "owner_display_name" dn)),
        by simp [metaFields, hmd']⟩
    obtain ⟨fd9, hmeta⟩ := hmeta0
    refine ⟨fields1, fd9, hpf, ?_, fun b hb => by rw [hb]⟩
    simp only [transform_row, Option.bind_eq_bind, hpf, Option.some_bind, hproj,
      hisPub, hurl, htz, hdn', hmeta, Option.pure_def]

theorem C8_flatten_total_deterministic_witness :
    wellFormedAsset sampleClassified = true
      ∧ ∃ fields1 rec,
          pageViewsFields sampleClassified = some fields1
            ∧ transform_row sampleClassified
                = some ({ sampleClassified with
                    resource := { sampleClassified.resource with fields := fields1 } },
                  rec)
            ∧ (∀ b : Asset, b = sampleClassified →
                transform_row b = transform_row sampleClassified) :=
  ⟨by decide, C8_flatten_total_deterministic sampleClassified (by decide)⟩

/-! ## Lemmas about `get_row_counts`: enrichment as a per-row map -/

theorem mapM_cons_some {α β : Type} (f : α → Option β) (x : α) (xs : List α)
    (l : List β) (h : (x :: xs).mapM f = some l) :
    ∃ y ys, f x = some y ∧ xs.mapM f = some ys ∧ l = y :: ys := by
  rw [List.mapM_cons] at h
  simp only [Option.bind_eq_bind, Option.bind_eq_some, Option.pure_def,
    Option.some.injEq] at h
  obtain ⟨y, hy, ys, hys, rfl⟩ := h
  exact ⟨y, ys, hy, hys, rfl⟩

theorem mapM_some_of_forall {α β : Type} (f : α → Option β) (g : α → β) :
    ∀ l : List α, (∀ x ∈ l, f x = some (g x)) → l.mapM f = some (l.map g) := by
  intro l
  induction l with
  | nil => intro _; rfl
  | cons x xs ih =>
    intro h
    rw [List.mapM_cons, h x (List.mem_cons_self x xs),
      ih (fun y hy => h y (List.mem_cons_of_mem _ hy))]
    rfl

theorem mapM_eq_some_map {α β : Type} (f : α → Option β) (g : α → β) :
    ∀ (l : List α) (l' : List β), l.mapM f = some l' →
      (∀ x ∈ l, ∀ y, f x = some y → y = g x) → l' = l.map g := by
  intro l
  induction l with
  | nil =>
    intro l' h _
    simp only [List.mapM_nil, Option.pure_def, Option.some.injEq] at h
    rw [← h]
    rfl
  | cons x xs ih =>
    intro l' h hg
    obtain ⟨y, ys, hy, hys, rfl⟩ := mapM_cons_some f x xs l' h
    rw [List.map_cons, hg x (List.mem_cons_self x xs) y hy,
      ih ys hys (fun z hz => hg z (List.mem_cons_of_mem _ hz))]

theorem mapM_congr {α β : Type} (f g : α → Option β) (h : ∀ x, f x = g x) :
    ∀ l : List α, l.mapM f = l.mapM g := by
  intro l
  induction l with
  | nil => rfl
  | cons x xs ih => rw [List.mapM_cons, List.mapM_cons, h x, ih]

theorem mapM_bind_mapM {α : Type} (f g : α → Option α) :
    ∀ l : List α,
      (l.mapM f).bind (fun l' => l'.mapM g) = l.mapM (fun x => (f x).bind g) := by
  intro l
  induction l with
  | nil => rfl
  | cons x xs ih =>
    cases hfx : f x with
    | none =>
      have h1 : (x :: xs).mapM f = none := by
        rw [List.mapM_cons, hfx]
        rfl
      have h2 : (x :: xs).mapM (fun x => (f x).bind g) = none := by
        rw [List.mapM_cons, hfx]
        rfl
      rw [h1, h2]
      rfl
    | some y =>
      cases hxs : xs.mapM f with
      | none =>
        have h1 : (x :: xs).mapM f = none := by
          rw [List.mapM_cons, hfx, hxs]
          rfl
        have h3 : xs.mapM (fun x => (f x).bind g) = none := by
          rw [← ih, hxs]
          rfl
        have h2 : (x :: xs).mapM (fun x => (f x).bind g) = none := by
          rw [List.mapM_cons, h3, hfx]
          show g y >>= (fun z =>
            (none : Option (List α)) >>= fun zs => pure (z :: zs)) = none
          cases g y <;> rfl
        rw [h1, h2]
        rfl
      | some ys =>
        have h1 : (x :: xs).mapM f = some (y :: ys) := by
          rw [List.mapM_cons, hfx, hxs]
          rfl
        have h2 : xs.mapM (fun x => (f x).bind g) = ys.mapM g := by
          rw [← ih, hxs]
          rfl
        rw [h1]
        show (y :: ys).mapM g = (x :: xs).mapM fun x => (f x).bind g
        rw [List.mapM_cons, List.mapM_cons, h2, hfx]
        rfl

theorem mapM_fetch_inv (counts : Value → Option Value) :
    ∀ (ids : List Value) (results : List (Value × Value)),
    ids.mapM (fetch counts) = some results →
    results.map Prod.fst = ids ∧ ∀ r ∈ results, counts r.1 = some r.2 := by
  intro ids
  induction ids with
  | nil =>
    intro results h
    simp only [List.mapM_nil, Option.pure_def, Option.some.injEq] at h
    rw [← h]
    exact ⟨rfl, by intro r hr; cases hr⟩
  | cons i ids ih =>
    intro results h
    obtain ⟨r0, rs, hr0, hrs, rfl⟩ := mapM_cons_some _ i ids results h
    unfold fetch at hr0
    cases hc : counts i with
    | none =>
      rw [hc] at hr0
      cases hr0
    | some c =>
      rw [hc] at hr0
      simp only [Option.map_some', Option.some.injEq] at hr0
      obtain ⟨hfst, hcnt⟩ := ih rs hrs
      subst hr0
      refine ⟨by rw [List.map_cons, hfst], ?_⟩
      intro r hr
      rcases List.mem_cons.mp hr with rfl | hr'
      · exact hc
      · exact hcnt r hr'

theorem datasetIds_inv : ∀ (data : List Dict) (ids : List Value),
    datasetIds data = some ids →
    (∀ row ∈ data, ∃ t, dlookup row "type" = some t)
      ∧ (∀ row ∈ data, dlookup row "type" = some (.str "dataset") →
          ∃ idv, dlookup row "id" = some idv ∧ idv ∈ ids)
      ∧ (∀ idv ∈ ids, ∃ row, row ∈ data ∧ dlookup row "type" = some (.str "dataset")
          ∧ dlookup row "id" = some idv) := by
  intro data
  induction data with
  | nil =>
    intro ids h
    simp only [datasetIds, Option.some.injEq] at h
    subst h
    refine ⟨?_, ?_, ?_⟩
    · intro row hr
      cases hr
    · intro row hr
      cases hr
    · intro idv hi
      cases hi
  | cons r rest ih =>
    intro ids h
    unfold datasetIds at h
    simp only [Option.bind_eq_bind, Option.bind_eq_some] at h
    obtain ⟨t, ht, h⟩ := h
    by_cases hds : t = Value.str "dataset"
    · rw [if_pos hds] at h
      simp only [Option.bind_eq_some, Option.pure_def, Option.some.injEq] at h
      obtain ⟨idv, hid, tail, htail, rfl⟩ := h
      obtain ⟨ih1, ih2, ih3⟩ := ih tail htail
      subst hds
      refine ⟨?_, ?_, ?_⟩
      · intro row hr
        rcases List.mem_cons.mp hr with rfl | hr'
        · exact ⟨_, ht⟩
        · exact ih1 row hr'
      · intro row hr hrt
        rcases List.mem_cons.mp hr with rfl | hr'
        · exact ⟨idv, hid, List.mem_cons_self _ _⟩
        · obtain ⟨i2, h2, h3⟩ := ih2 row hr' hrt
          exact ⟨i2, h2, List.mem_cons_of_mem _ h3⟩
      · intro iv hiv
        rcases List.mem_cons.mp hiv with rfl | hi'
        · exact ⟨r, List.mem_cons_self _ _, ht, hid⟩
        · obtain ⟨row, h1, h2, h3⟩ := ih3 iv hi'
          exact ⟨row, List.mem_cons_of_mem _ h1, h2, h3⟩
    · rw [if_neg hds] at h
      obtain ⟨ih1, ih2, ih3⟩ := ih ids h
      refine ⟨?_, ?_, ?_⟩
      · intro row hr
        rcases List.mem_cons.mp hr with rfl | hr'
        · exact ⟨t, ht⟩
        · exact ih1 row hr'
      · intro row hr hrt
        rcases List.mem_cons.mp hr with rfl | hr'
        · rw [ht] at hrt
          injection hrt with he
          exact absurd he hds
        · exact ih2 row hr' hrt
      · intro iv hiv
        obtain ⟨row, h1, h2, h3⟩ := ih3 iv hiv
        exact ⟨row, List.mem_cons_of_mem _ h1, h2, h3⟩

theorem datasetIds_sublist : ∀ (data : List Dict) (ids : List Value),
    datasetIds data = some ids →
    (ids.map some).Sublist (data.map (fun r => dlookup r "id")) := by
  intro data
  induction data with
  | nil =>
    intro ids h
    simp only [datasetIds, Option.some.injEq] at h
    subst h
    simp
  | cons r rest ih =>
    intro ids h
    unfold datasetIds at h
    simp only [Option.bind_eq_bind, Option.bind_eq_some] at h
    obtain ⟨t, ht, h⟩ := h
    by_cases hds : t = Value.str "dataset"
    · rw [if_pos hds] at h
      simp only [Option.bind_eq_some, Option.pure_def, Option.some.injEq] at h
      obtain ⟨idv, hid, tail, htail, rfl⟩ := h
      simp only [List.map_cons]
      rw [hid]
      exact List.Sublist.cons₂ _ (ih tail htail)
    · rw [if_neg hds] at h
      simp only [List.map_cons]
      exact List.Sublist.cons _ (ih ids h)

theorem applyResults_no_match : ∀ (results : List (Value × Value)) (row : Dict)
    (idv : Value), dlookup row "id" = some idv → (∀ res ∈ results, res.1 ≠ idv) →
    applyResults results row = some row := by
  intro results
  induction results with
  | nil => intro row idv _ _; rfl
  | cons res rest ih =>
    intro row idv hid hne
    unfold applyResults
    simp only [Option.bind_eq_bind]
    rw [hid, Option.some_bind,
      if_neg (fun he => hne res (List.mem_cons_self _ _) he.symm)]
    exact ih row idv hid (fun r hr => hne r (List.mem_cons_of_mem _ hr))

theorem applyResults_append : ∀ (l1 l2 : List (Value × Value)) (row : Dict),
    applyResults (l1 ++ l2) row = (applyResults l1 row).bind (applyResults l2) := by
  intro l1
  induction l1 with
  | nil => intro l2 row; rfl
  | cons res rest ih =>
    intro l2 row
    show applyResults (res :: (rest ++ l2)) row = _
    simp only [applyResults]
    cases hid : dlookup row "id" with
    | none => rfl
    | some idv =>
      show applyResults (rest ++ l2)
          (if idv = res.1 then dinsert row "row_count" res.2 else row)
        = (applyResults rest
            (if idv = res.1 then dinsert row "row_count" res.2 else row)).bind
          (applyResults l2)
      exact ih l2 _

theorem applyResults_cons_eq (res : Value × Value) (rest : List (Value × Value))
    (row : Dict) :
    applyResults (res :: rest) row
      = ((dlookup row "id").bind
          (fun idv =>
            some (if idv = res.1 then dinsert row "row_count" res.2 else row))).bind
          (applyResults rest) := by
  simp only [applyResults]
  cases hid : dlookup row "id" with
  | none => rfl
  | some idv => rfl

theorem mergeCounts_eq_mapM : ∀ (results : List (Value × Value)) (data : List Dict),
    mergeCounts results data = data.mapM (applyResults results) := by
  intro results
  induction results with
  | nil =>
    intro data
    show some data = data.mapM (applyResults [])
    rw [mapM_some_of_forall (applyResults []) id data (fun x _ => rfl), List.map_id]
  | cons res rest ih =>
    intro data
    unfold mergeCounts
    simp only [Option.bind_eq_bind, ih]
    rw [mapM_bind_mapM]
    exact mapM_congr _ _ (fun row => (applyResults_cons_eq res rest row).symm) data

theorem get_row_counts_eq_map (counts : Value → Option Value) (data out : List Dict)
    (h : get_row_counts counts data = some out)
    (hnd : (data.map (fun r => dlookup r "id")).Nodup) :
    out = data.map (enrichRow counts) := by
  unfold get_row_counts at h
  simp only [Option.bind_eq_bind, Option.bind_eq_some] at h
  obtain ⟨ids, hids, results, hres, hmerge⟩ := h
  obtain ⟨hty, hds, hmem⟩ := datasetIds_inv data ids hids
  obtain ⟨hfst, hcnt⟩ := mapM_fetch_inv counts ids results hres
  have hsub := datasetIds_sublist data ids hids
  have hidnd : ids.Nodup := List.Nodup.of_map some (List.Sublist.nodup hsub hnd)
  rw [mergeCounts_eq_mapM] at hmerge
  have hone : ∀ row ∈ data, ∀ row', applyResults results row = some row' →
      row' = enrichRow counts row := by
    intro row hrowmem row' happ
    by_cases hdst : dlookup row "type" = some (Value.str "dataset")
    · obtain ⟨idv, hid, hin⟩ := hds row hrowmem hdst
      have hinfst : idv ∈ results.map Prod.fst := by rw [hfst]; exact hin
      obtain ⟨res, hresmem, hres1⟩ := List.mem_map.mp hinfst
      obtain ⟨l1, l2, rfl⟩ := List.append_of_mem hresmem
      subst hres1
      have hndfst : (l1.map Prod.fst ++ res.1 :: l2.map Prod.fst).Nodup := by
        have h0 : ((l1 ++ res :: l2).map Prod.fst).Nodup := by rw [hfst]; exact hidnd
        simpa using h0
      have hnotmem : res.1 ∉ l1.map Prod.fst ++ l2.map Prod.fst :=
        (List.nodup_cons.mp (List.nodup_middle.mp hndfst)).1
      rw [List.mem_append] at hnotmem
      obtain ⟨hn1, hn2⟩ := not_or.mp hnotmem
      rw [applyResults_append,
        applyResults_no_match l1 row res.1 hid
          (fun r hr he => hn1 (he ▸ List.mem_map_of_mem Prod.fst hr)),
        Option.some_bind] at happ
      unfold applyResults at happ
      simp only [Option.bind_eq_bind] at happ
      rw [hid, Option.some_bind, if_pos rfl] at happ
      have hid2 : dlookup (dinsert row "row_count" res.2) "id" = some res.1 := by
        rw [dlookup_dinsert_ne _ _ _ _ (by decide)]
        exact hid
      rw [applyResults_no_match l2 _ res.1 hid2
        (fun r hr he => hn2 (he ▸ List.mem_map_of_mem Prod.fst hr))] at happ
      injection happ with happ
      have hc : counts res.1 = some res.2 :=
        hcnt res (List.mem_append_right _ (List.mem_cons_self _ _))
      have henr : enrichRow counts row = dinsert row "row_count" res.2 := by
        unfold enrichRow
        rw [if_pos hdst]
        simp only [hid, hc]
      rw [henr]
      exact happ.symm
    · have henr : enrichRow counts row = row := by
        unfold enrichRow
        rw [if_neg hdst]
      rw [henr]
      cases hidq : dlookup row "id" with
      | none =>
        cases results with
        | nil =>
          have h2 : some row = some row' := happ
          injection h2 with h2
          exact h2.symm
        | cons r0 rs =>
          unfold applyResults at happ
          simp only [Option.bind_eq_bind] at happ
          rw [hidq] at happ
          simp at happ
      | some idv =>
        have hnotin : idv ∉ ids := by
          intro hin
          obtain ⟨row2, hrm2, hty2, hid2⟩ := hmem idv hin
          have hne : row ≠ row2 := fun he => hdst (by rw [he]; exact hty2)
          exact hne (List.inj_on_of_nodup_map hnd hrowmem hrm2 (by rw [hidq, hid2]))
        have hnm : ∀ r ∈ results, r.1 ≠ idv := by
          intro r hr he
          exact hnotin (by rw [← hfst, ← he]; exact List.mem_map_of_mem Prod.fst hr)
        rw [applyResults_no_match results row idv hidq hnm] at happ
        injection happ with happ
        exact happ.symm
  exact mapM_eq_some_map (applyResults results) (enrichRow counts) data out hmerge hone

/-- Claim C9: assuming unique record identifiers, a successful enrichment
run returns exactly its input records, in order and number, each mapped
through the per-row enrichment; and that per-row enrichment changes no
field other than `row_count`. -/
theorem C9_enrichment_frame (counts : Value → Option Value) (data out : List Dict)
    (h : get_row_counts counts data = some out)
    (hnd : (data.map (fun r => dlookup r "id")).Nodup) :
    out = data.map (enrichRow counts)
      ∧ out.length = data.length
      ∧ ∀ (row : Dict) (k : String), k ≠ "row_count" →
          dlookup (enrichRow counts row) k = dlookup row k := by
  have hmap := get_row_counts_eq_map counts data out h hnd
  refine ⟨hmap, by rw [hmap, List.length_map], ?_⟩
  intro row k hk
  unfold enrichRow
  split
  · cases hid : dlookup row "id" with
    | none => rfl
    | some idv =>
      show dlookup (match counts idv with
        | some c => dinsert row "row_count" c
        | none => row) k = dlookup row k
      cases hc : counts idv with
      | none => rfl
      | some c => exact dlookup_dinsert_ne _ _ _ _ hk
  · rfl

theorem C9_enrichment_frame_witness :
    get_row_counts strCounts [dsRow, chartRow] = some [dsRowEnriched, chartRow]
      ∧ ([dsRow, chartRow].map (fun r => dlookup r "id")).Nodup
      ∧ ([dsRowEnriched, chartRow] = [dsRow, chartRow].map (enrichRow strCounts)
        ∧ ([dsRowEnriched, chartRow] : List Dict).length
            = ([dsRow, chartRow] : List Dict).length
        ∧ ∀ (row : Dict) (k : String), k ≠ "row_count" →
            dlookup (enrichRow strCounts row) k = dlookup row k) :=
  ⟨by decide, by decide,
    C9_enrichment_frame strCounts [dsRow, chartRow] [dsRowEnriched, chartRow]
      (by decide) (by decide)⟩

/-- The count value is stored verbatim, not validated as numeric: a
successful enrichment run against a count endpoint answering with a string
(the shape §6 allows) leaves a `"dataset"`-typed record whose `row_count`
is present but not numeric. -/
theorem C6_count_not_numeric_counterexample :
    get_row_counts strCounts [dsRow] = some [dsRowEnriched]
      ∧ dlookup dsRowEnriched "row_count" = some (.str "53")
      ∧ (dlookup dsRowEnriched "row_count").map isNum = some false := by
  decide

/-- Claim C6 (amended): after a successful enrichment run with unique
record identifiers, every `"dataset"`-typed record's `row_count` is
present and holds the fetched count value verbatim (matched to the record
by identifier), and records of any other type are returned unchanged —
in particular they never gain a `row_count` key. -/
theorem C6_enrichment_presence (counts : Value → Option Value) (data out : List Dict)
    (h : get_row_counts counts data = some out)
    (hnd : (data.map (fun r => dlookup r "id")).Nodup) :
    out = data.map (enrichRow counts)
      ∧ (∀ row ∈ data, dlookup row "type" = some (.str "dataset") →
          ∃ idv c, dlookup row "id" = some idv ∧ counts idv = some c
            ∧ dlookup (enrichRow counts row) "row_count" = some c)
      ∧ (∀ row ∈ data, dlookup row "type" ≠ some (.str "dataset") →
          enrichRow counts row = row) := by
  refine ⟨get_row_counts_eq_map counts data out h hnd, ?_, ?_⟩
  · unfold get_row_counts at h
    simp only [Option.bind_eq_bind, Option.bind_eq_some] at h
    obtain ⟨ids, hids, results, hres, hmerge⟩ := h
    obtain ⟨hty, hds, hmem⟩ := datasetIds_inv data ids hids
    obtain ⟨hfst, hcnt⟩ := mapM_fetch_inv counts ids results hres
    intro row hrow hrt
    obtain ⟨idv, hid, hin⟩ := hds row hrow hrt
    have hinfst : idv ∈ results.map Prod.fst := by rw [hfst]; exact hin
    obtain ⟨res, hresmem, hres1⟩ := List.mem_map.mp hinfst
    have hc : counts idv = some res.2 := by
      rw [← hres1]
      exact hcnt res hresmem
    refine ⟨idv, res.2, hid, hc, ?_⟩
    unfold enrichRow
    rw [if_pos hrt]
    simp only [hid, hc]
    exact dlookup_dinsert_self _ _ _
  · intro row _ hrt
    unfold enrichRow
    rw [if_neg hrt]

theorem C6_enrichment_presence_witness :
    get_row_counts strCounts [dsRow] = some [dsRowEnriched]
      ∧ ([dsRow].map (fun r => dlookup r "id")).Nodup
      ∧ ([dsRowEnriched] = [dsRow].map (enrichRow strCounts)
        ∧ (∀ row ∈ [dsRow], dlookup row "type" = some (.str "dataset") →
            ∃ idv c, dlookup row "id" = some idv ∧ strCounts idv = some c
              ∧ dlookup (enrichRow strCounts row) "row_count" = some c)
        ∧ (∀ row ∈ [dsRow], dlookup row "type" ≠ some (.str "dataset") →
            enrichRow strCounts row = row)) :=
  ⟨by decide, by decide,
    C6_enrichment_presence strCounts [dsRow] [dsRowEnriched] (by decide) (by decide)⟩

/-- Claim C7 (code bug): `asyncio.gather` without `return_exceptions`
re-raises the first failed fetch, so one failing count query aborts the
whole enrichment batch — no other record receives a count and nothing
proceeds to publish. Here the query for the second dataset succeeds on
its own, the query for the first fails, and the run over both produces
nothing at all. -/
theorem C7_single_failure_aborts_batch :
    fetch failCounts (.str "bbbb-0002") = some (.str "bbbb-0002", .num 7)
      ∧ fetch failCounts (.str "abcd-1234") = none
      ∧ get_row_counts failCounts [dsRow, dsRow2] = none
      ∧ get_row_counts failCounts [dsRow2]
          = some [dinsert dsRow2 "row_count" (.num 7)] := by
  decide

end SocrataMetadata
